import Mathlib

/-!
Verification of the filter mini-language parser (src/main.py) against its
natural-language specification.

The program is built on the parsy combinator library (parsy 2.x).  We give a
shallow embedding of the parts of parsy the program uses, and of every
definition in src/main.py, and prove or refute the spec claims about them.

Modelling conventions:
* Python strings are sequences of Unicode code points, modelled as `List Nat`.
* parsy's `Result` is a five-field record `(status, index, value, furthest,
  expected)`; failures always carry `index = -1` and `value = None` and no code
  path reads those two fields of a failure, so we model `Result` as a sum with
  an `ok` arm `(index, value, furthest, expected)` and an `err` arm
  `(furthest, expected)`.
* `frozenset` of expected descriptions is modelled as `Finset (List Nat)`.
* Python `float` is IEEE-754 binary64; it is modelled here by the exact
  rational value of the numeric literal (`ℚ`).  None of the claims settled in
  this file depend on binary64 rounding.
* CPython's `set` iterates in hash-table slot order, which depends on the
  elements' hashes and (under collisions) on insertion order, and is not in
  general reproducible (string hashing is randomized per process).  We model
  `set(xs)` as first-occurrence deduplication (`pySet`).  This choice fixes AN
  order but not THE order: unlike a real set, `pySet` of an already-deduplicated
  list is that list again, so no theorem below asserts an order-dependent
  equality such as idempotence of the normalizer (which the program does not
  satisfy).  Theorems whose truth could depend on the iteration order are
  stated in an order-insensitive way (membership, length, head-is-None,
  permutation), except where the hash-table order provably coincides with
  first-occurrence order on the concrete input involved; those places are
  marked by comments.
-/

/-- Code points of a Lean string, used to write Python string constants. -/
def strCodes (s : String) : List Nat := s.data.map Char.toNat

/-- Character of `s` at absolute position `i`, if any (Python s[i]). -/
def nthc (s : List Nat) (i : Nat) : Option Nat := (List.drop i s).head?

/-- Python slice s[i:j]. -/
def sliceL (s : List Nat) (i j : Nat) : List Nat := List.take (j - i) (List.drop i s)

/-- Python str.lower restricted to one code point.  For the targets compared
against in this program ("null", "true", "false") the full Unicode lowering
agrees with ASCII lowering: no non-ASCII code point lowers to any of the
letters n,u,l,t,r,e,f,a,s (the only single-character Unicode lowerings into
ASCII are U+212A to k, which does not occur in those targets). -/
def asciiLower (c : Nat) : Nat := if 65 ≤ c ∧ c ≤ 90 then c + 32 else c

/-- Python str.lower on a string, as used by the transform arguments. -/
def asciiLowerL (s : List Nat) : List Nat := s.map asciiLower

/-- Equality of finite sets of descriptions, decided by mutual inclusion (the
library instance is built with rewriting tactics, which blocks kernel
evaluation; this one evaluates). -/
instance (priority := 2000) decEqFinsetCodes : DecidableEq (Finset (List Nat)) := fun s t =>
  decidable_of_iff (s ⊆ t ∧ t ⊆ s)
    ⟨fun h => Finset.Subset.antisymm h.1 h.2,
     fun h => ⟨h ▸ Finset.Subset.refl s, h ▸ Finset.Subset.refl t⟩⟩

/-- parsy Result: `ok index value furthest expected` models a success record,
`err furthest expected` a failure record (whose index/value fields parsy
never reads). -/
inductive PResult (α : Type) where
  | ok (index : Nat) (value : α) (furthest : Int) (expected : Finset (List Nat))
  | err (furthest : Int) (expected : Finset (List Nat))

/-- Equality of results, decided componentwise (a derived instance would cast
data along Finset equalities, which the kernel cannot evaluate). -/
instance decEqPResultC {α : Type} [DecidableEq α] : DecidableEq (PResult α) := fun a b =>
  match a, b with
  | .ok i1 v1 f1 e1, .ok i2 v2 f2 e2 =>
    decidable_of_iff (i1 = i2 ∧ v1 = v2 ∧ f1 = f2 ∧ e1 = e2)
      (Iff.symm (iff_of_eq (PResult.ok.injEq i1 v1 f1 e1 i2 v2 f2 e2)))
  | .ok i1 v1 f1 e1, .err f2 e2 => isFalse (fun h => by cases h)
  | .err f1 e1, .ok i2 v2 f2 e2 => isFalse (fun h => by cases h)
  | .err f1 e1, .err f2 e2 =>
    decidable_of_iff (f1 = f2 ∧ e1 = e2)
      (Iff.symm (iff_of_eq (PResult.err.injEq f1 e1 f2 e2)))

/-- Furthest-failure position carried by a result. -/
def PResult.fur {α : Type} : PResult α → Int
  | .ok _ _ f _ => f
  | .err f _ => f

/-- Expected-description set carried by a result. -/
def PResult.exp {α : Type} : PResult α → Finset (List Nat)
  | .ok _ _ _ e => e
  | .err _ e => e

/-- parsy Result.aggregate: merge the furthest failure seen by `r` with the
furthest failure `(of, oe)` of another result (parsy keeps whichever is
further, unioning the expected sets on a tie).  Passing `(-1, ∅)` models
aggregating with None. -/
def PResult.aggregate {α : Type} : PResult α → Int → Finset (List Nat) → PResult α
  | .ok i v f e, of, oe =>
      if of < f then .ok i v f e
      else if f = of then .ok i v f (e ∪ oe)
      else .ok i v of oe
  | .err f e, of, oe =>
      if of < f then .err f e
      else if f = of then .err f (e ∪ oe)
      else .err of oe

/-- A parsy parser: a function from the stream and a start index to a Result. -/
def Parser (α : Type) : Type := List Nat → Nat → PResult α

/-- parsy success(value): succeed without consuming. -/
def psuccessP {α : Type} (v : α) : Parser α := fun _ i => .ok i v (-1) ∅

/-- parsy Parser.bind. -/
def pbind {α β : Type} (p : Parser α) (f : α → Parser β) : Parser β := fun s i =>
  match p s i with
  | .ok j v pf pe => (f v s j).aggregate pf pe
  | .err f e => .err f e

/-- parsy Parser.map, which is bind into success. -/
def pmap {α β : Type} (p : Parser α) (f : α → β) : Parser β :=
  pbind p (fun v => psuccessP (f v))

/-- parsy alternation `p | q`: the first success wins; failures aggregate. -/
def palt {α : Type} (p q : Parser α) : Parser α := fun s i =>
  match p s i with
  | .ok j v f e => .ok j v f e
  | .err f e => (q s i).aggregate f e

/-- parsy Parser.desc: on failure, replace the result by a failure at the
described parser's start index carrying only the description. -/
def pdesc {α : Type} (p : Parser α) (d : List Nat) : Parser α := fun s i =>
  match p s i with
  | .ok j v f e => .ok j v f e
  | .err _ _ => .err (i : Int) {d}

/-- parsy string(expected, transform): compare `transform` of the slice of the
input of the expected string's length against the expected string; succeed
with the expected string as value. -/
def pstringT (expected : List Nat) (transform : List Nat → List Nat) : Parser (List Nat) :=
  fun s i =>
    if transform (sliceL s i (i + expected.length)) = expected then
      .ok (i + expected.length) expected (-1) ∅
    else
      .err (i : Int) {expected}

/-- parsy string(expected) with the identity transform. -/
def pstring (expected : List Nat) : Parser (List Nat) := pstringT expected id

/-- parsy regex(pattern): `matchEnd s i` returns the end position of the
re.match of the pattern anchored at `i`, if any; the value is the matched
text and a failure expects the pattern source. -/
def pregexM (pattern : List Nat) (matchEnd : List Nat → Nat → Option Nat) :
    Parser (List Nat) := fun s i =>
  match matchEnd s i with
  | some j => .ok j (sliceL s i j) (-1) ∅
  | none => .err (i : Int) {pattern}

/-- parsy seq(p1, p2) (two positional parsers): run in order, aggregating each
result with the previous one, and aggregate the final success as well. -/
def pseq2 {α β : Type} (p : Parser α) (q : Parser β) : Parser (α × β) := fun s i =>
  match (p s i).aggregate (-1) ∅ with
  | .err f e => .err f e
  | .ok i1 v1 f1 e1 =>
    match (q s i1).aggregate f1 e1 with
    | .err f e => .err f e
    | .ok i2 v2 f2 e2 => (PResult.ok i2 (v1, v2) (-1) ∅).aggregate f2 e2

/-- parsy seq(p1, p2, p3) (three parsers, positional or keyword: keyword
arguments run in insertion order just like positional ones). -/
def pseq3 {α β γ : Type} (p : Parser α) (q : Parser β) (r : Parser γ) :
    Parser (α × β × γ) := fun s i =>
  match (p s i).aggregate (-1) ∅ with
  | .err f e => .err f e
  | .ok i1 v1 f1 e1 =>
    match (q s i1).aggregate f1 e1 with
    | .err f e => .err f e
    | .ok i2 v2 f2 e2 =>
      match (r s i2).aggregate f2 e2 with
      | .err f e => .err f e
      | .ok i3 v3 f3 e3 => (PResult.ok i3 (v1, v2, v3) (-1) ∅).aggregate f3 e3

/-- parsy Parser.then (`>>`): seq(self, other).combine(lambda l, r: r). -/
def pthen {α β : Type} (p : Parser α) (q : Parser β) : Parser β :=
  pbind (pseq2 p q) (fun r => psuccessP r.2)

/-- parsy Parser.skip (`<<`): seq(self, other).combine(lambda l, r: l). -/
def pskip {α β : Type} (p : Parser α) (q : Parser β) : Parser α :=
  pbind (pseq2 p q) (fun r => psuccessP r.1)

/-- parsy Parser.times(1): run once; on success wrap the value in a
singleton list and aggregate, on failure return the failure. -/
def ptimes1 {α : Type} (p : Parser α) : Parser (List α) := fun s i =>
  match (p s i).aggregate (-1) ∅ with
  | .ok j v f e => (PResult.ok j [v] (-1) ∅).aggregate f e
  | .err f e => .err f e

/-- Loop of parsy Parser.times(0, float("inf")): repeat `p`, aggregating each
result with the previous one, until the first failure, then succeed with the
collected values, aggregating the failure.  parsy's while-loop terminates
whenever the repeated parser consumes input on success, which every repeated
parser in this program does; the fuel is sized so that it never runs out for
consuming parsers. -/
def ptimesLoop {α : Type} (p : Parser α) (s : List Nat) :
    Nat → Nat → List α → Int → Finset (List Nat) → PResult (List α)
  | 0, i, acc, f, e => (PResult.ok i acc.reverse (-1) ∅).aggregate f e
  | fuel + 1, i, acc, f, e =>
    match (p s i).aggregate f e with
    | .ok j v f1 e1 => ptimesLoop p s fuel j (v :: acc) f1 e1
    | .err f1 e1 => (PResult.ok i acc.reverse (-1) ∅).aggregate f1 e1

/-- parsy Parser.times(0, float("inf")) (also known as many()). -/
def ptimesInf {α : Type} (p : Parser α) : Parser (List α) := fun s i =>
  ptimesLoop p s (s.length + 1 - i) i [] (-1) ∅

/-- parsy Parser.sep_by(sep, min=1):
self.times(1) + (sep >> self).times(0, inf), where `+` is
seq(a, b).combine(operator.add). -/
def psepBy1 {α : Type} (p : Parser α) (sep : Parser (List Nat)) : Parser (List α) :=
  pbind (pseq2 (ptimes1 p) (ptimesInf (pthen sep p))) (fun r => psuccessP (r.1 ++ r.2))

/-- parsy eof: succeed at end of input, otherwise fail expecting "EOF". -/
def peof : Parser Unit := fun s i =>
  if s.length ≤ i then .ok i () (-1) ∅ else .err (i : Int) {strCodes "EOF"}

/-- parsy ParseError value: the expected set and the furthest index reached. -/
structure ParseErr where
  expected : Finset (List Nat)
  index : Int

/-- Componentwise decidable equality for ParseErr (see decEqPResultC). -/
instance decEqParseErrC : DecidableEq ParseErr := fun a b =>
  decidable_of_iff (a.expected = b.expected ∧ a.index = b.index)
    (Iff.symm (iff_of_eq (ParseErr.mk.injEq a.expected a.index b.expected b.index)))

/-- parsy Parser.parse: run `self << eof` from position 0 and return the value,
or the ParseError data carried by the failure. -/
def pparse {α : Type} (p : Parser α) (s : List Nat) : Except ParseErr α :=
  match pskip p peof s 0 with
  | .ok _ v _ _ => .ok v
  | .err f e => .error ⟨e, f⟩

/-! ### Character classes and the three regular expressions

The program uses three regexes via `parsy.regex`, always anchored at the
current position (`re.match`).  Each is compiled here to an explicit matcher
returning the end position of the match, together with a proof obligation
discharged by inspection that the deterministic matcher computes exactly the
end position Python's backtracking engine finds (the justifications are in
the doc comments). -/

/-- ASCII decimal digit. -/
def isDigitC (c : Nat) : Bool := 48 ≤ c && c ≤ 57

/-- First character of IDENTIFIER_RE: [A-Za-z_]. -/
def isIdentStart (c : Nat) : Bool := (65 ≤ c && c ≤ 90) || (97 ≤ c && c ≤ 122) || c == 95

/-- Continuation character of IDENTIFIER_RE: [A-Za-z0-9_]. -/
def isIdentCont (c : Nat) : Bool := isIdentStart c || isDigitC c

/-- Length of the maximal run of decimal digits starting at `i`. -/
def digitRun (s : List Nat) (i : Nat) : Nat :=
  ((List.drop i s).takeWhile isDigitC).length

/-- re.match of IDENTIFIER_RE = [a-zA-Z_][a-zA-Z0-9_]* at `i`: one start
character then the maximal run of continuation characters (the trailing `*`
is greedy and nothing follows it, so maximal munch is exact). -/
def identMatchEnd (s : List Nat) (i : Nat) : Option Nat :=
  match nthc s i with
  | some c =>
      if isIdentStart c then
        some (i + 1 + ((List.drop (i + 1) s).takeWhile isIdentCont).length)
      else none
  | none => none

/-- re.match of the number regex [-+]?[0-9]*\.?[0-9]+([eE][-+]?[0-9]+)? at
`i`, with Python's greedy backtracking resolved:
* an optional sign is consumed when present (if the remainder then fails, the
  sign-less alternative starts at the sign character, which is neither a
  digit nor a dot, so it fails too);
* let d be the maximal digit run after the sign; if a dot follows it and at
  least one digit follows the dot, the mantissa extends through the maximal
  digit run after the dot; otherwise the engine backtracks the trailing
  [0-9]+ onto the last digit of the run, so the mantissa is exactly the run
  (failing when the run is empty);
* an exponent part is consumed only when `e`/`E`, an optional sign, and at
  least one digit follow; otherwise the optional group matches empty. -/
def floatMatchEnd (s : List Nat) (i : Nat) : Option Nat :=
  let j := if nthc s i = some 43 ∨ nthc s i = some 45 then i + 1 else i
  let d := digitRun s j
  let p := j + d
  let mant : Option Nat :=
    if nthc s p = some 46 then
      let d2 := digitRun s (p + 1)
      if 0 < d2 then some (p + 1 + d2)
      else if 0 < d then some p else none
    else if 0 < d then some p else none
  match mant with
  | none => none
  | some q =>
    if nthc s q = some 101 ∨ nthc s q = some 69 then
      let k := if nthc s (q + 1) = some 43 ∨ nthc s (q + 1) = some 45 then q + 2 else q + 1
      let d3 := digitRun s k
      if 0 < d3 then some (k + d3) else some q
    else some q

/-- Single-character escapes allowed after a backslash: " \ / b f n r t. -/
def isEsc1 (c : Nat) : Bool :=
  c == 34 || c == 92 || c == 47 || c == 98 || c == 102 || c == 110 || c == 114 || c == 116

/-- Hexadecimal digit [a-fA-F0-9]. -/
def isHexDigit (c : Nat) : Bool :=
  (48 ≤ c && c ≤ 57) || (97 ≤ c && c ≤ 102) || (65 ≤ c && c ≤ 70)

/-- Characters allowed unescaped inside a JSON string literal by
JSON_STR_RE's class [^"\\\0-\x1F\x7F]: everything except the quote, the
backslash, the control range below 0x20, and 0x7F. -/
def jsonAllowed (c : Nat) : Bool := !(c == 34 || c == 92 || c < 32 || c == 127)

/-- Number of characters of a JSON string body (everything after the opening
quote) consumed by JSON_STR_RE, including the closing quote, if the regex
matches.  The star in `(escape|allowed+)*"` can only stop at an unescaped
quote (neither alternative consumes a quote, and the final `"` of the pattern
cannot match anything else), so Python's backtracking engine reduces to this
deterministic scan: a quote closes the literal, a backslash must begin a
valid escape, any other allowed character is consumed, and anything else
(control characters, 0x7F, end of input) makes the whole match fail. -/
def jsonBodyEnd : List Nat → Option Nat
  | [] => none
  | c :: rest =>
    if c = 34 then some 1
    else if c = 92 then
      match rest with
      | [] => none
      | e :: rest2 =>
        if isEsc1 e then (jsonBodyEnd rest2).map (· + 2)
        else if e = 117 then
          match rest2 with
          | h1 :: h2 :: h3 :: h4 :: rest3 =>
            if isHexDigit h1 && isHexDigit h2 && isHexDigit h3 && isHexDigit h4 then
              (jsonBodyEnd rest3).map (· + 6)
            else none
          | _ => none
        else none
    else if jsonAllowed c then (jsonBodyEnd rest).map (· + 1)
    else none

/-- re.match of JSON_STR_RE at `i`: an opening quote followed by a matching
body. -/
def jsonStrMatchEnd (s : List Nat) (i : Nat) : Option Nat :=
  match nthc s i with
  | some c =>
      if c = 34 then (jsonBodyEnd (List.drop (i + 1) s)).map (fun k => i + 1 + k)
      else none
  | none => none

/-! ### Python conversions: float(), int(), json.loads -/

/-- Numeric value of a list of decimal digit characters. -/
def digitsVal (l : List Nat) : Nat := l.foldl (fun a c => a * 10 + (c - 48)) 0

/-- Python float() applied to a text matched by the number regex, modelled as
the exact rational value of the literal (sign, integer digits, optional
fractional digits, optional decimal exponent). -/
def pyFloat (t : List Nat) : ℚ :=
  let st : Int × List Nat :=
    match t with
    | 43 :: r => (1, r)
    | 45 :: r => (-1, r)
    | _ => (1, t)
  let ip := st.2.takeWhile isDigitC
  let r1 := st.2.drop ip.length
  let fr : List Nat × List Nat :=
    match r1 with
    | 46 :: r => (r.takeWhile isDigitC, r.drop (r.takeWhile isDigitC).length)
    | _ => ([], r1)
  let ex : Int :=
    match fr.2 with
    | e :: rest =>
      if e = 101 ∨ e = 69 then
        match rest with
        | 45 :: ds => -(digitsVal (ds.takeWhile isDigitC) : Int)
        | 43 :: ds => (digitsVal (ds.takeWhile isDigitC) : Int)
        | ds => (digitsVal (ds.takeWhile isDigitC) : Int)
      else 0
    | [] => 0
  let e10 : Int := ex - (fr.1.length : Int)
  Rat.divInt (st.1 * (digitsVal (ip ++ fr.1) : Int) * 10 ^ e10.toNat) (10 ^ (-e10).toNat)

/-- Python float.is_integer() on the exact rational model: no fractional
part. -/
def pyIsInteger (q : ℚ) : Bool := q.den == 1

/-- Python int() applied to a float, truncation toward zero (only ever called
on integral values in this program, where it is the numerator). -/
def pyTrunc (q : ℚ) : Int := Int.tdiv q.num (q.den : Int)

/-- Value of a hexadecimal digit character. -/
def hexVal (c : Nat) : Nat :=
  if 48 ≤ c ∧ c ≤ 57 then c - 48
  else if 97 ≤ c ∧ c ≤ 102 then c - 87
  else if 65 ≤ c ∧ c ≤ 70 then c - 55
  else 0

/-- Value of four hexadecimal digit characters. -/
def hex4 (a b c d : Nat) : Nat :=
  ((hexVal a * 16 + hexVal b) * 16 + hexVal c) * 16 + hexVal d

/-- Decoding loop of json.loads on the body of a string literal matched by
JSON_STR_RE (CPython's py_scanstring): ordinary characters stand for
themselves, the eight single-character escapes decode to their code points,
\uXXXX decodes to the code unit, with a high surrogate followed by an escaped
low surrogate combined into one supplementary code point.  The closing quote
ends the literal.  The fall-through arms for malformed escapes cannot be
reached on regex-matched input. -/
def jsonUnescapeF : Nat → List Nat → List Nat
  | 0, _ => []
  | _, [] => []
  | _, 34 :: _ => []
  | fuel + 1, 92 :: 117 :: h1 :: h2 :: h3 :: h4 :: rest =>
    let u := hex4 h1 h2 h3 h4
    if 0xD800 ≤ u ∧ u ≤ 0xDBFF then
      match rest with
      | 92 :: 117 :: k1 :: k2 :: k3 :: k4 :: rest2 =>
        let u2 := hex4 k1 k2 k3 k4
        if 0xDC00 ≤ u2 ∧ u2 ≤ 0xDFFF then
          (0x10000 + (u - 0xD800) * 0x400 + (u2 - 0xDC00)) :: jsonUnescapeF fuel rest2
        else u :: jsonUnescapeF fuel rest
      | _ => u :: jsonUnescapeF fuel rest
    else u :: jsonUnescapeF fuel rest
  | fuel + 1, 92 :: e :: rest =>
    if e = 34 then 34 :: jsonUnescapeF fuel rest
    else if e = 92 then 92 :: jsonUnescapeF fuel rest
    else if e = 47 then 47 :: jsonUnescapeF fuel rest
    else if e = 98 then 8 :: jsonUnescapeF fuel rest
    else if e = 102 then 12 :: jsonUnescapeF fuel rest
    else if e = 110 then 10 :: jsonUnescapeF fuel rest
    else if e = 114 then 13 :: jsonUnescapeF fuel rest
    else if e = 116 then 9 :: jsonUnescapeF fuel rest
    else []
  | fuel + 1, c :: rest => c :: jsonUnescapeF fuel rest

/-- Decoding loop at the entry fuel: every step consumes at least one input
character, so a fuel equal to the input length never runs out. -/
def jsonUnescape (l : List Nat) : List Nat := jsonUnescapeF l.length l

def jsonDecodeLit (lit : List Nat) : List Nat := jsonUnescape (List.drop 1 lit)

/-! ### AST data model (src/main.py lines 50-85) -/

/-- TableReference dataclass: table and column identifiers. -/
structure TableReference where
  table : List Nat
  column : List Nat
  deriving DecidableEq

/-- Element of a NumExpr value tuple: Python int or float (the latter
modelled as the exact rational of the literal). -/
inductive PyNum where
  | pyint (n : Int)
  | pyfloat (q : ℚ)
  deriving DecidableEq

/-- NumExpr dataclass: value is a tuple of ints-or-None or floats-or-None. -/
structure NumExpr where
  value : List (Option PyNum)
  deriving DecidableEq

/-- StrExpr dataclass: value is a tuple of strings-or-None. -/
structure StrExpr where
  value : List (Option (List Nat))
  deriving DecidableEq

/-- BoolNullExpr dataclass: value is a tuple of bools-or-None. -/
structure BoolNullExpr where
  value : List (Option Bool)
  deriving DecidableEq

/-- Expr = NumExpr | StrExpr | BoolNullExpr (a union in the source; a tagged
sum here). -/
inductive Expr where
  | numE (e : NumExpr)
  | strE (e : StrExpr)
  | boolE (e : BoolNullExpr)
  deriving DecidableEq

/-- TablePredicate dataclass. -/
structure TablePredicate where
  table_reference : TableReference
  expr : Expr
  deriving DecidableEq

/-- TablePredicateList dataclass. -/
structure TablePredicateList where
  predicates : List TablePredicate
  deriving DecidableEq

/-! ### Normalisation helpers (src/main.py lines 36-47) -/

/-- map_ignore_none(f, iterable): yield None for None, f(item) otherwise. -/
def map_ignore_none {α β : Type} (f : α → β) (l : List (Option α)) : List (Option β) :=
  l.map (Option.map f)

/-- Python set(xs) as used by unique_sort_list: deduplication by structural
equality.  CPython iterates a set in hash-table order; we use first-occurrence
order (see the header comment for how theorems stay independent of this
choice). -/
def pySetAux {α : Type} [DecidableEq α] (seen : List α) : List α → List α
  | [] => []
  | a :: l => if a ∈ seen then pySetAux seen l else a :: pySetAux (a :: seen) l

/-- Python set(xs): deduplication by structural equality, modelled in
first-occurrence order (real sets iterate in hash-table order; see the header
comment for which theorems may rely on this order and how). -/
def pySet {α : Type} [DecidableEq α] (l : List α) : List α := pySetAux [] l

/-- Python sorted(xs, key=k) for a Bool-valued key: Timsort is stable, and
False sorts before True, so the result is the false-keyed elements in order
followed by the true-keyed elements in order. -/
def pySortedByBoolKey {α : Type} (key : α → Bool) (l : List α) : List α :=
  l.filter (fun v => !key v) ++ l.filter key

/-- unique_sort_list(exprs) = sorted(set(exprs), key=lambda v: v is not None).
The key is False exactly for None, so after deduplication the sort puts the
None element (if any) first and keeps the defined values in set order. -/
def unique_sort_list {α : Type} [DecidableEq α] (exprs : List (Option α)) :
    List (Option α) :=
  pySortedByBoolKey (fun v => v.isSome) (pySet exprs)

/-! ### The grammar (src/main.py lines 88-170) -/

/-- Line 90: null_token = string("null", transform=lambda s: s.lower())
.map(lambda s: None).  The Python parser's value is None; it is used inside
three differently-typed lists, so the element type is a parameter here. -/
def null_token (α : Type) : Parser (Option α) :=
  pmap (pstringT (strCodes "null") asciiLowerL) (fun _ => none)

/-- Line 16: IDENTIFIER_RE. -/
def identPattern : List Nat := strCodes "[a-zA-Z_][a-zA-Z0-9_]*"

/-- regex(IDENTIFIER_RE), shared by both fields of table_reference. -/
def ident_regex : Parser (List Nat) := pregexM identPattern identMatchEnd

/-- Lines 92-103: table_reference = seq(table=regex(IDENTIFIER_RE).desc("table
name"), _dot=string(".").desc("table name/column delimiter"),
column=regex(IDENTIFIER_RE).desc("table column")).combine_dict(TableReference)
.desc("table.column reference").  combine_dict drops the underscore-named
field and is bind into success. -/
def table_reference : Parser TableReference :=
  pdesc
    (pbind
      (pseq3 (pdesc ident_regex (strCodes "table name"))
             (pdesc (pstring (strCodes ".")) (strCodes "table name/column delimiter"))
             (pdesc ident_regex (strCodes "table column")))
      (fun r => psuccessP (TableReference.mk r.1 r.2.2)))
    (strCodes "table.column reference")

/-- Pattern text of the number regex (line 105). -/
def floatPattern : List Nat := strCodes "[-+]?[0-9]*\\.?[0-9]+([eE][-+]?[0-9]+)?"

/-- Line 105: float_token = regex(...).map(float).desc("number"). -/
def float_token : Parser ℚ :=
  pdesc (pmap (pregexM floatPattern floatMatchEnd) pyFloat) (strCodes "number")

/-- Line 106: num_or_null_token = float_token | null_token.  The Python value
union float|None is modelled as Option: the some-injection map added here
changes no result metadata. -/
def num_or_null_token : Parser (Option ℚ) :=
  palt (pmap float_token some) (null_token ℚ)

/-- The list-wide coercion lambda of lines 110-114: if every non-None element
is integral, apply int to every non-None element, else keep the float list
(the pyfloat injection is type-level only). -/
def coerceNumList (f_list : List (Option ℚ)) : List (Option PyNum) :=
  if f_list.all (fun f => match f with | none => true | some q => pyIsInteger q) then
    map_ignore_none (fun q => PyNum.pyint (pyTrunc q)) f_list
  else
    f_list.map (Option.map PyNum.pyfloat)

/-- Lines 108-116: num_or_null_token_list = num_or_null_token.sep_by(
string(","), min=1).map(coercion).desc("comma delimited list of ints or
floats"). -/
def num_or_null_token_list : Parser (List (Option PyNum)) :=
  pdesc (pmap (psepBy1 num_or_null_token (pstring (strCodes ","))) coerceNumList)
    (strCodes "comma delimited list of ints or floats")

/-- Line 13: JSON_STR_RE pattern text (braces written as escapes). -/
def jsonStrPattern : List Nat :=
  strCodes "\"(\\\\([\"\\\\\\/bfnrt]|u[a-fA-F0-9]\x7b4\x7d)|[^\"\\\\\\u0000-\x1F\x7F]+)*\""

/-- Lines 118-122: str_token = regex(JSON_STR_RE).map(json.loads).desc("valid,
JSON-encoded string"). -/
def str_token : Parser (List Nat) :=
  pdesc (pmap (pregexM jsonStrPattern jsonStrMatchEnd) jsonDecodeLit)
    (strCodes "valid, JSON-encoded string")

/-- Line 124: str_or_none = str_token | null_token. -/
def str_or_none : Parser (Option (List Nat)) :=
  palt (pmap str_token some) (null_token (List Nat))

/-- Lines 126-128: str_or_null_token_list = str_or_none.sep_by(string(","),
min=1).desc("comma delimited list of valid, JSON-encoded strings"). -/
def str_or_null_token_list : Parser (List (Option (List Nat))) :=
  pdesc (psepBy1 str_or_none (pstring (strCodes ",")))
    (strCodes "comma delimited list of valid, JSON-encoded strings")

/-- Lines 130-134: bool_token = string_from("true", "false",
transform=lower).map(val == "true").desc("true/false/null").  string_from
sorts its candidates longest first, so it is string("false") | string("true"). -/
def bool_token : Parser Bool :=
  pdesc
    (pmap (palt (pstringT (strCodes "false") asciiLowerL)
                (pstringT (strCodes "true") asciiLowerL))
          (fun val => val == strCodes "true"))
    (strCodes "true/false/null")

/-- Line 136: bool_or_null = bool_token | null_token. -/
def bool_or_null : Parser (Option Bool) :=
  palt (pmap bool_token some) (null_token Bool)

/-- Lines 138-140: bool_null_token_list = bool_or_null.sep_by(string(","),
min=1).desc("comma delimited list of true/false/null"). -/
def bool_null_token_list : Parser (List (Option Bool)) :=
  pdesc (psepBy1 bool_or_null (pstring (strCodes ",")))
    (strCodes "comma delimited list of true/false/null")

/-- Lines 143-145: num_expr = num_or_null_token_list.map(NumExpr ∘ tuple ∘
unique_sort_list).desc("number list expression"). -/
def num_expr : Parser NumExpr :=
  pdesc (pmap num_or_null_token_list (fun exprs => NumExpr.mk (unique_sort_list exprs)))
    (strCodes "number list expression")

/-- Lines 146-148: str_expr. -/
def str_expr : Parser StrExpr :=
  pdesc (pmap str_or_null_token_list (fun exprs => StrExpr.mk (unique_sort_list exprs)))
    (strCodes "string list expression")

/-- Lines 149-151: bool_expr. -/
def bool_expr : Parser BoolNullExpr :=
  pdesc (pmap bool_null_token_list (fun exprs => BoolNullExpr.mk (unique_sort_list exprs)))
    (strCodes "true/false list expression")

/-- Line 153: expr = (str_expr | num_expr | bool_expr).desc("expression").
Python's | is left-associative; the constructor injections model the union
value type and change no result metadata. -/
def expr : Parser Expr :=
  pdesc
    (palt (palt (pmap str_expr Expr.strE) (pmap num_expr Expr.numE))
          (pmap bool_expr Expr.boolE))
    (strCodes "expression")

/-- Lines 155-164: predicate = seq(table_reference=table_reference,
_colon=string(":"), expr=expr).combine_dict(TablePredicate).desc("table.column
predicate"). -/
def predicate : Parser TablePredicate :=
  pdesc
    (pbind (pseq3 table_reference (pstring (strCodes ":")) expr)
      (fun r => psuccessP (TablePredicate.mk r.1 r.2.2)))
    (strCodes "table.column predicate")

/-- Lines 166-170: predicate_list = predicate.sep_by(string(";"), min=1)
.map(TablePredicateList ∘ tuple).desc("semicolon delimited list of
predicates"). -/
def predicate_list : Parser TablePredicateList :=
  pdesc (pmap (psepBy1 predicate (pstring (strCodes ";")))
          (fun predicates => TablePredicateList.mk predicates))
    (strCodes "semicolon delimited list of predicates")

/-- Componentwise decidable equality for Except values (see decEqPResultC). -/
instance decEqExceptC {ε α : Type} [DecidableEq ε] [DecidableEq α] :
    DecidableEq (Except ε α) := fun a b =>
  match a, b with
  | .ok x, .ok y => decidable_of_iff (x = y) (Iff.symm (iff_of_eq (@Except.ok.injEq ε α x y)))
  | .ok x, .error y => isFalse (fun h => by cases h)
  | .error x, .ok y => isFalse (fun h => by cases h)
  | .error x, .error y =>
    decidable_of_iff (x = y) (Iff.symm (iff_of_eq (@Except.error.injEq ε α x y)))

/-! ### Result and combinator lemmas

`okData` projects a result to its success index and value.  Aggregation never
changes it, so success values can be traced through the combinators. -/

/-- Success index and value of a result, if it is a success. -/
def PResult.okData {α : Type} : PResult α → Option (Nat × α)
  | .ok i v _ _ => some (i, v)
  | .err _ _ => none

/-- The invariant claimed of every parsed Expr: the value tuple is
duplicate-free and non-empty. -/
def Expr.normalized : Expr → Prop
  | .numE e => e.value.Nodup ∧ e.value ≠ []
  | .strE e => e.value.Nodup ∧ e.value ≠ []
  | .boolE e => e.value.Nodup ∧ e.value ≠ []

/-- Value tuple of the BoolNullExpr of a parse that produced exactly one
predicate whose expression is boolean, if any (a statement helper). -/
def parsedSingleBoolValues (s : String) : Option (List (Option Bool)) :=
  match pparse predicate_list (strCodes s) with
  | .ok tpl =>
    match tpl.predicates with
    | [pr] =>
      match pr.expr with
      | .boolE b => some b.value
      | _ => none
    | _ => none
  | .error _ => none

theorem aggregate_okData {α : Type} (r : PResult α) (of : Int) (oe : Finset (List Nat)) :
    (r.aggregate of oe).okData = r.okData := by
  cases r <;> simp only [PResult.aggregate] <;> split_ifs <;> rfl

theorem okData_eq_some {α : Type} {r : PResult α} {j : Nat} {v : α} :
    r.okData = some (j, v) ↔ ∃ f e, r = .ok j v f e := by
  cases r with
  | ok i w f e =>
    simp only [PResult.okData, Option.some.injEq, Prod.mk.injEq, PResult.ok.injEq]
    constructor
    · rintro ⟨rfl, rfl⟩; exact ⟨f, e, rfl, rfl, rfl, rfl⟩
    · rintro ⟨f2, e2, rfl, rfl, _, _⟩; exact ⟨rfl, rfl⟩
  | err f e =>
    simp only [PResult.okData]
    constructor
    · rintro ⟨⟩
    · rintro ⟨f2, e2, h⟩; cases h

theorem aggregate_ok_shape {α : Type} (i : Nat) (v : α) (f : Int) (e : Finset (List Nat))
    (of : Int) (oe : Finset (List Nat)) :
    ∃ f2 e2, (PResult.ok i v f e).aggregate of oe = .ok i v f2 e2 := by
  simp only [PResult.aggregate]
  split_ifs <;> exact ⟨_, _, rfl⟩

theorem aggregate_err_shape {α : Type} (f : Int) (e : Finset (List Nat))
    (of : Int) (oe : Finset (List Nat)) :
    ∃ f2 e2, (PResult.err (α := α) f e).aggregate of oe = .err f2 e2 := by
  simp only [PResult.aggregate]
  split_ifs <;> exact ⟨_, _, rfl⟩

theorem pbind_okData {α β : Type} (p : Parser α) (g : α → Parser β) (s : List Nat) (i : Nat) :
    (pbind p g s i).okData =
      (p s i).okData.bind (fun jv => (g jv.2 s jv.1).okData) := by
  unfold pbind
  cases h : p s i with
  | ok j v f e => exact aggregate_okData (g v s j) f e
  | err f e => rfl

theorem psuccessP_okData {α : Type} (v : α) (s : List Nat) (i : Nat) :
    (psuccessP v s i).okData = some (i, v) := rfl

theorem pmap_okData {α β : Type} (p : Parser α) (g : α → β) (s : List Nat) (i : Nat) :
    (pmap p g s i).okData = (p s i).okData.map (fun jv => (jv.1, g jv.2)) := by
  unfold pmap
  rw [pbind_okData]
  cases h : (p s i).okData <;> rfl

theorem pdesc_okData {α : Type} (p : Parser α) (d : List Nat) (s : List Nat) (i : Nat) :
    (pdesc p d s i).okData = (p s i).okData := by
  unfold pdesc
  cases h : p s i <;> rfl

theorem palt_okData {α : Type} (p q : Parser α) (s : List Nat) (i : Nat) :
    (palt p q s i).okData = ((p s i).okData).or ((q s i).okData) := by
  unfold palt
  cases h : p s i with
  | ok j v f e => rfl
  | err f e => rw [aggregate_okData]; rfl

theorem pseq2_okData {α β : Type} (p : Parser α) (q : Parser β) (s : List Nat) (i : Nat) :
    (pseq2 p q s i).okData =
      (p s i).okData.bind (fun jv =>
        ((q s jv.1).okData).map (fun kw => (kw.1, (jv.2, kw.2)))) := by
  unfold pseq2
  cases hp : p s i with
  | err f e =>
    obtain ⟨f2, e2, hsh⟩ := aggregate_err_shape (α := α) f e (-1) ∅
    rw [hsh]
    rfl
  | ok i1 v1 f1 e1 =>
    obtain ⟨f2, e2, hsh⟩ := aggregate_ok_shape i1 v1 f1 e1 (-1) ∅
    rw [hsh]
    cases hq : q s i1 with
    | err g1 g2 =>
      obtain ⟨f3, e3, hsh2⟩ := aggregate_err_shape (α := β) g1 g2 f2 e2
      simp [PResult.okData, hq, hsh2]
    | ok i2 v2 g3 g4 =>
      obtain ⟨f3, e3, hsh2⟩ := aggregate_ok_shape i2 v2 g3 g4 f2 e2
      obtain ⟨f4, e4, hsh3⟩ := aggregate_ok_shape i2 (v1, v2) (-1) (∅) f3 e3
      simp [PResult.okData, hq, hsh2, hsh3]

theorem pseq3_okData {α β γ : Type} (p : Parser α) (q : Parser β) (r : Parser γ)
    (s : List Nat) (i : Nat) :
    (pseq3 p q r s i).okData =
      (p s i).okData.bind (fun jv =>
        ((q s jv.1).okData).bind (fun kw =>
          ((r s kw.1).okData).map (fun lu => (lu.1, (jv.2, kw.2, lu.2))))) := by
  unfold pseq3
  cases hp : p s i with
  | err f e =>
    obtain ⟨f2, e2, hsh⟩ := aggregate_err_shape (α := α) f e (-1) ∅
    rw [hsh]
    rfl
  | ok i1 v1 f1 e1 =>
    obtain ⟨f2, e2, hsh⟩ := aggregate_ok_shape i1 v1 f1 e1 (-1) ∅
    rw [hsh]
    cases hq : q s i1 with
    | err g1 g2 =>
      obtain ⟨f3, e3, hsh2⟩ := aggregate_err_shape (α := β) g1 g2 f2 e2
      simp [PResult.okData, hq, hsh2]
    | ok i2 v2 g3 g4 =>
      obtain ⟨f3, e3, hsh2⟩ := aggregate_ok_shape i2 v2 g3 g4 f2 e2
      cases hr : r s i2 with
      | err k1 k2 =>
        obtain ⟨f4, e4, hsh3⟩ := aggregate_err_shape (α := γ) k1 k2 f3 e3
        simp [PResult.okData, hq, hsh2, hr, hsh3]
      | ok i3 v3 k3 k4 =>
        obtain ⟨f4, e4, hsh3⟩ := aggregate_ok_shape i3 v3 k3 k4 f3 e3
        obtain ⟨f5, e5, hsh4⟩ := aggregate_ok_shape i3 (v1, v2, v3) (-1) (∅) f4 e4
        simp [PResult.okData, hq, hsh2, hr, hsh3, hsh4]

theorem ptimes1_okData {α : Type} (p : Parser α) (s : List Nat) (i : Nat) :
    (ptimes1 p s i).okData = (p s i).okData.map (fun jv => (jv.1, [jv.2])) := by
  unfold ptimes1
  cases hp : p s i with
  | err f e =>
    obtain ⟨f2, e2, hsh⟩ := aggregate_err_shape (α := α) f e (-1) ∅
    rw [hsh]
    rfl
  | ok i1 v1 f1 e1 =>
    obtain ⟨f2, e2, hsh⟩ := aggregate_ok_shape i1 v1 f1 e1 (-1) ∅
    rw [hsh]
    obtain ⟨f3, e3, hsh2⟩ := aggregate_ok_shape i1 [v1] (-1) (∅) f2 e2
    simp [PResult.okData, hsh2]

theorem ptimesLoop_mem {α : Type} (p : Parser α) (s : List Nat) :
    ∀ (fuel i : Nat) (acc : List α) (f : Int) (e : Finset (List Nat)) {j : Nat} {vs : List α},
      (ptimesLoop p s fuel i acc f e).okData = some (j, vs) →
      ∀ y ∈ vs, y ∈ acc ∨ ∃ i2 j2, (p s i2).okData = some (j2, y) := by
  intro fuel
  induction fuel with
  | zero =>
    intro i acc f e j vs h y hy
    unfold ptimesLoop at h
    rw [aggregate_okData] at h
    simp only [PResult.okData, Option.some.injEq, Prod.mk.injEq] at h
    left
    rw [← h.2] at hy
    exact List.mem_reverse.mp hy
  | succ n ih =>
    intro i acc f e j vs h y hy
    unfold ptimesLoop at h
    cases hp : p s i with
    | ok j1 v1 f1 e1 =>
      obtain ⟨f2, e2, hsh⟩ := aggregate_ok_shape j1 v1 f1 e1 f e
      rw [hp, hsh] at h
      rcases ih j1 (v1 :: acc) f2 e2 h y hy with hin | hex
      · rcases List.mem_cons.mp hin with rfl | hin2
        · right
          exact ⟨i, j1, by rw [hp]; rfl⟩
        · left; exact hin2
      · right; exact hex
    | err f1 e1 =>
      obtain ⟨f2, e2, hsh⟩ := aggregate_err_shape (α := α) f1 e1 f e
      rw [hp, hsh] at h
      rw [aggregate_okData] at h
      simp only [PResult.okData, Option.some.injEq, Prod.mk.injEq] at h
      left
      rw [← h.2] at hy
      exact List.mem_reverse.mp hy

theorem pthen_okData_some {α β : Type} {a : Parser α} {b : Parser β} {s : List Nat}
    {i j : Nat} {y : β} (h : (pthen a b s i).okData = some (j, y)) :
    ∃ i2, (b s i2).okData = some (j, y) := by
  unfold pthen at h
  rw [pbind_okData, pseq2_okData] at h
  cases ha : (a s i).okData with
  | none => rw [ha] at h; cases h
  | some jv =>
    rw [ha] at h
    simp only [Option.some_bind] at h
    cases hb : (b s jv.1).okData with
    | none => rw [hb] at h; cases h
    | some kw =>
      rw [hb] at h
      simp only [Option.map_some', Option.some_bind, psuccessP_okData,
        Option.some.injEq, Prod.mk.injEq] at h
      refine ⟨jv.1, ?_⟩
      rw [hb, ← h.1, ← h.2]

theorem psepBy1_okData {α : Type} (p : Parser α) (sep : Parser (List Nat)) (s : List Nat)
    (i j : Nat) (vs : List α) (h : (psepBy1 p sep s i).okData = some (j, vs)) :
    vs ≠ [] ∧ ∀ y ∈ vs, ∃ i2 j2, (p s i2).okData = some (j2, y) := by
  unfold psepBy1 at h
  rw [pbind_okData, pseq2_okData, ptimes1_okData] at h
  cases hp : (p s i).okData with
  | none => rw [hp] at h; cases h
  | some jv =>
    rw [hp] at h
    simp only [Option.map_some', Option.some_bind] at h
    cases ht : (ptimesInf (pthen sep p) s jv.1).okData with
    | none => rw [ht] at h; cases h
    | some kw =>
      rw [ht] at h
      simp only [Option.map_some', Option.some_bind, psuccessP_okData,
        Option.some.injEq, Prod.mk.injEq] at h
      constructor
      · rw [← h.2]; simp
      · intro y hy
        rw [← h.2] at hy
        rcases List.mem_append.mp hy with h1 | h2
        · rcases List.mem_singleton.mp h1 with rfl
          exact ⟨i, jv.1, by rw [hp]⟩
        · have ht2 : (ptimesLoop (pthen sep p) s (s.length + 1 - jv.1) jv.1 [] (-1) ∅).okData
              = some kw := by
            rw [← ht]; rfl
          have := ptimesLoop_mem (pthen sep p) s _ _ _ _ _
            (by rw [ht2]) y h2
          rcases this with hin | ⟨i2, j2, hok⟩
          · cases hin
          · rcases pthen_okData_some hok with ⟨i3, hb⟩
            exact ⟨i3, j2, hb⟩

/-! ### Properties of the normaliser -/

theorem mem_pySetAux {α : Type} [DecidableEq α] :
    ∀ (l seen : List α) (x : α), x ∈ pySetAux seen l ↔ x ∈ l ∧ x ∉ seen := by
  intro l
  induction l with
  | nil => intro seen x; simp [pySetAux]
  | cons a t ih =>
    intro seen x
    by_cases ha : a ∈ seen
    · simp only [pySetAux, if_pos ha]
      rw [ih]
      constructor
      · rintro ⟨hx, hns⟩; exact ⟨List.mem_cons_of_mem _ hx, hns⟩
      · rintro ⟨hx, hns⟩
        rcases List.mem_cons.mp hx with rfl | hxt
        · exact absurd ha hns
        · exact ⟨hxt, hns⟩
    · simp only [pySetAux, if_neg ha, List.mem_cons]
      rw [ih]
      constructor
      · rintro (rfl | ⟨hx, hns⟩)
        · exact ⟨Or.inl rfl, ha⟩
        · refine ⟨Or.inr hx, fun hs => hns (List.mem_cons_of_mem _ hs)⟩
      · rintro ⟨hx, hns⟩
        by_cases hxa : x = a
        · exact Or.inl hxa
        · rcases hx with rfl | hxt
          · exact Or.inl rfl
          · right
            refine ⟨hxt, fun hs => ?_⟩
            rcases List.mem_cons.mp hs with h1 | h2
            · exact hxa h1
            · exact hns h2

theorem nodup_pySetAux {α : Type} [DecidableEq α] :
    ∀ (l seen : List α), (pySetAux seen l).Nodup := by
  intro l
  induction l with
  | nil => intro seen; simp [pySetAux]
  | cons a t ih =>
    intro seen
    by_cases ha : a ∈ seen
    · simp only [pySetAux, if_pos ha]; exact ih seen
    · simp only [pySetAux, if_neg ha]
      refine List.nodup_cons.mpr ⟨fun hmem => ?_, ih (a :: seen)⟩
      rcases (mem_pySetAux t (a :: seen) a).mp hmem with ⟨-, hns⟩
      exact hns (List.mem_cons_self a seen)

theorem mem_pySet {α : Type} [DecidableEq α] (l : List α) (x : α) :
    x ∈ pySet l ↔ x ∈ l := by
  unfold pySet
  rw [mem_pySetAux]
  simp

theorem nodup_pySet {α : Type} [DecidableEq α] (l : List α) : (pySet l).Nodup :=
  nodup_pySetAux l []

theorem usl_perm_pySet {α : Type} [DecidableEq α] (l : List (Option α)) :
    (unique_sort_list l).Perm (pySet l) := by
  unfold unique_sort_list pySortedByBoolKey
  exact List.perm_append_comm.trans (List.filter_append_perm _ (pySet l))

theorem usl_nodup {α : Type} [DecidableEq α] (l : List (Option α)) :
    (unique_sort_list l).Nodup :=
  ((usl_perm_pySet l).nodup_iff).mpr (nodup_pySet l)

theorem mem_usl {α : Type} [DecidableEq α] (l : List (Option α)) (x : Option α) :
    x ∈ unique_sort_list l ↔ x ∈ l := by
  rw [(usl_perm_pySet l).mem_iff, mem_pySet]

theorem usl_ne_nil {α : Type} [DecidableEq α] {l : List (Option α)} (h : l ≠ []) :
    unique_sort_list l ≠ [] := by
  intro h0
  cases l with
  | nil => exact h rfl
  | cons a t =>
    have : a ∈ unique_sort_list (a :: t) := (mem_usl _ _).mpr (List.mem_cons_self a t)
    rw [h0] at this
    cases this

theorem not_isSome_eq_isNone {α : Type} (v : Option α) : (!v.isSome) = v.isNone := by
  cases v <;> rfl

theorem filter_not_isSome_of_nodup {α : Type} [DecidableEq α] :
    ∀ (m : List (Option α)), m.Nodup →
      m.filter (fun v => v.isNone) = if none ∈ m then [none] else [] := by
  intro m
  induction m with
  | nil => intro _; simp
  | cons a t ih =>
    intro hm
    cases a with
    | none =>
      have hnt : none ∉ t := (List.nodup_cons.mp hm).1
      have ht := ih (List.nodup_cons.mp hm).2
      simp [ht, hnt]
    | some x =>
      have ht := ih (List.nodup_cons.mp hm).2
      simp [ht]

theorem usl_eq_nones_append {α : Type} [DecidableEq α] (l : List (Option α)) :
    unique_sort_list l =
      (if none ∈ l then [none] else []) ++ (pySet l).filter (fun v => v.isSome) := by
  unfold unique_sort_list pySortedByBoolKey
  rw [show (fun v : Option α => !v.isSome) = (fun v : Option α => v.isNone) from
    funext not_isSome_eq_isNone]
  rw [filter_not_isSome_of_nodup (pySet l) (nodup_pySet l)]
  simp only [mem_pySet]

theorem coerceNumList_ne_nil {l : List (Option ℚ)} (h : l ≠ []) :
    coerceNumList l ≠ [] := by
  unfold coerceNumList
  split
  · simp [map_ignore_none, h]
  · simp [h]

/-! ### Shape of successful value parses -/

theorem num_list_okData_shape {s : List Nat} {i j : Nat} {nl : List (Option PyNum)}
    (h : (num_or_null_token_list s i).okData = some (j, nl)) :
    ∃ ql : List (Option ℚ), nl = coerceNumList ql ∧ ql ≠ [] := by
  unfold num_or_null_token_list at h
  rw [pdesc_okData, pmap_okData] at h
  cases hq : (psepBy1 num_or_null_token (pstring (strCodes ",")) s i).okData with
  | none => rw [hq] at h; cases h
  | some jv =>
    rw [hq] at h
    simp only [Option.map_some', Option.some.injEq, Prod.mk.injEq] at h
    refine ⟨jv.2, h.2.symm, ?_⟩
    exact (psepBy1_okData _ _ _ _ _ _ (by rw [hq])).1

theorem num_expr_okData_shape {s : List Nat} {i j : Nat} {ne : NumExpr}
    (h : (num_expr s i).okData = some (j, ne)) :
    ∃ ql : List (Option ℚ),
      ne = NumExpr.mk (unique_sort_list (coerceNumList ql)) ∧ ql ≠ [] := by
  unfold num_expr at h
  rw [pdesc_okData, pmap_okData] at h
  cases hq : (num_or_null_token_list s i).okData with
  | none => rw [hq] at h; cases h
  | some jv =>
    rw [hq] at h
    simp only [Option.map_some', Option.some.injEq, Prod.mk.injEq] at h
    obtain ⟨ql, hql, hne⟩ := num_list_okData_shape (by rw [hq])
    exact ⟨ql, by rw [← h.2, hql], hne⟩

theorem str_expr_okData_shape {s : List Nat} {i j : Nat} {se : StrExpr}
    (h : (str_expr s i).okData = some (j, se)) :
    ∃ raw : List (Option (List Nat)),
      se = StrExpr.mk (unique_sort_list raw) ∧ raw ≠ [] := by
  unfold str_expr at h
  rw [pdesc_okData, pmap_okData] at h
  cases hq : (str_or_null_token_list s i).okData with
  | none => rw [hq] at h; cases h
  | some jv =>
    rw [hq] at h
    simp only [Option.map_some', Option.some.injEq, Prod.mk.injEq] at h
    refine ⟨jv.2, h.2.symm, ?_⟩
    unfold str_or_null_token_list at hq
    rw [pdesc_okData] at hq
    exact (psepBy1_okData _ _ _ _ _ _ (by rw [hq])).1

theorem bool_expr_okData_shape {s : List Nat} {i j : Nat} {be : BoolNullExpr}
    (h : (bool_expr s i).okData = some (j, be)) :
    ∃ raw : List (Option Bool),
      be = BoolNullExpr.mk (unique_sort_list raw) ∧ raw ≠ [] := by
  unfold bool_expr at h
  rw [pdesc_okData, pmap_okData] at h
  cases hq : (bool_null_token_list s i).okData with
  | none => rw [hq] at h; cases h
  | some jv =>
    rw [hq] at h
    simp only [Option.map_some', Option.some.injEq, Prod.mk.injEq] at h
    refine ⟨jv.2, h.2.symm, ?_⟩
    unfold bool_null_token_list at hq
    rw [pdesc_okData] at hq
    exact (psepBy1_okData _ _ _ _ _ _ (by rw [hq])).1

theorem expr_okData_normalized {s : List Nat} {i j : Nat} {ex : Expr}
    (h : (expr s i).okData = some (j, ex)) : Expr.normalized ex := by
  unfold expr at h
  rw [pdesc_okData, palt_okData, palt_okData, pmap_okData, pmap_okData, pmap_okData] at h
  cases hs : (str_expr s i).okData with
  | some jv =>
    rw [hs] at h
    have h2 : some (jv.1, Expr.strE jv.2) = some (j, ex) := h
    simp only [Option.some.injEq, Prod.mk.injEq] at h2
    obtain ⟨raw, hval, hne⟩ := str_expr_okData_shape (by rw [hs])
    rw [← h2.2, hval]
    exact ⟨usl_nodup raw, usl_ne_nil hne⟩
  | none =>
    rw [hs] at h
    cases hn : (num_expr s i).okData with
    | some kv =>
      rw [hn] at h
      have h2 : some (kv.1, Expr.numE kv.2) = some (j, ex) := h
      simp only [Option.some.injEq, Prod.mk.injEq] at h2
      obtain ⟨ql, hval, hne⟩ := num_expr_okData_shape (by rw [hn])
      rw [← h2.2, hval]
      exact ⟨usl_nodup _, usl_ne_nil (coerceNumList_ne_nil hne)⟩
    | none =>
      rw [hn] at h
      cases hb : (bool_expr s i).okData with
      | some lv =>
        rw [hb] at h
        have h2 : some (lv.1, Expr.boolE lv.2) = some (j, ex) := h
        simp only [Option.some.injEq, Prod.mk.injEq] at h2
        obtain ⟨raw, hval, hne⟩ := bool_expr_okData_shape (by rw [hb])
        rw [← h2.2, hval]
        exact ⟨usl_nodup raw, usl_ne_nil hne⟩
      | none =>
        rw [hb] at h
        cases h

theorem predicate_okData_normalized {s : List Nat} {i j : Nat} {pr : TablePredicate}
    (h : (predicate s i).okData = some (j, pr)) : Expr.normalized pr.expr := by
  unfold predicate at h
  rw [pdesc_okData, pbind_okData, pseq3_okData] at h
  cases ht : (table_reference s i).okData with
  | none => rw [ht] at h; cases h
  | some jv =>
    rw [ht] at h
    simp only [Option.some_bind] at h
    cases hc : (pstring (strCodes ":") s jv.1).okData with
    | none => rw [hc] at h; cases h
    | some kv =>
      rw [hc] at h
      simp only [Option.some_bind] at h
      cases he : (expr s kv.1).okData with
      | none => rw [he] at h; cases h
      | some lv =>
        rw [he] at h
        have h2 : some (lv.1, TablePredicate.mk jv.2 lv.2) = some (j, pr) := h
        simp only [Option.some.injEq, Prod.mk.injEq] at h2
        have hnorm := expr_okData_normalized (by rw [he])
        rw [← h2.2]
        exact hnorm

theorem pskip_okData_some {α β : Type} {a : Parser α} {b : Parser β} {s : List Nat}
    {i j : Nat} {y : α} (h : (pskip a b s i).okData = some (j, y)) :
    ∃ j1, (a s i).okData = some (j1, y) := by
  unfold pskip at h
  rw [pbind_okData, pseq2_okData] at h
  cases ha : (a s i).okData with
  | none => rw [ha] at h; cases h
  | some jv =>
    rw [ha] at h
    simp only [Option.some_bind] at h
    cases hb : (b s jv.1).okData with
    | none => rw [hb] at h; cases h
    | some kw =>
      rw [hb] at h
      simp only [Option.map_some', Option.some_bind, psuccessP_okData,
        Option.some.injEq, Prod.mk.injEq] at h
      refine ⟨jv.1, ?_⟩
      rw [← h.2]

theorem predicate_list_okData_shape {s : List Nat} {i j : Nat} {tpl : TablePredicateList}
    (h : (predicate_list s i).okData = some (j, tpl)) :
    tpl.predicates ≠ [] ∧ ∀ pr ∈ tpl.predicates, Expr.normalized pr.expr := by
  unfold predicate_list at h
  rw [pdesc_okData, pmap_okData] at h
  cases hq : (psepBy1 predicate (pstring (strCodes ";")) s i).okData with
  | none => rw [hq] at h; cases h
  | some jv =>
    rw [hq] at h
    simp only [Option.map_some', Option.some.injEq, Prod.mk.injEq] at h
    obtain ⟨hne, hmem⟩ := psepBy1_okData _ _ _ _ _ _ (show _ = some (jv.1, jv.2) from hq)
    constructor
    · rw [← h.2]; exact hne
    · intro pr hpr
      rw [← h.2] at hpr
      obtain ⟨i2, j2, hok⟩ := hmem pr hpr
      exact predicate_okData_normalized hok

theorem pparse_ok_normalized {s : List Nat} {tpl : TablePredicateList}
    (h : pparse predicate_list s = Except.ok tpl) :
    tpl.predicates ≠ [] ∧ ∀ pr ∈ tpl.predicates, Expr.normalized pr.expr := by
  unfold pparse at h
  cases hr : pskip predicate_list peof s 0 with
  | err f e => rw [hr] at h; cases h
  | ok k v f e =>
    rw [hr] at h
    have hv : v = tpl := by cases h; rfl
    have hok : (pskip predicate_list peof s 0).okData = some (k, tpl) := by
      rw [hr, hv]; rfl
    obtain ⟨j1, hpl⟩ := pskip_okData_some hok
    exact predicate_list_okData_shape hpl

/-! ### The numeric coercion dichotomy -/

theorem coerceNumList_cases (ql : List (Option ℚ)) :
    (∀ x ∈ coerceNumList ql, x = none ∨ ∃ n, x = some (PyNum.pyint n)) ∨
    ((∀ x ∈ coerceNumList ql, x = none ∨ ∃ q, x = some (PyNum.pyfloat q)) ∧
     ∃ q, some (PyNum.pyfloat q) ∈ coerceNumList ql ∧ q.den ≠ 1) := by
  unfold coerceNumList
  split
  case isTrue hall =>
    left
    intro x hx
    unfold map_ignore_none at hx
    rcases List.mem_map.mp hx with ⟨o, ho, rfl⟩
    cases o with
    | none => exact Or.inl rfl
    | some q => exact Or.inr ⟨_, rfl⟩
  case isFalse hall =>
    right
    constructor
    · intro x hx
      rcases List.mem_map.mp hx with ⟨o, ho, rfl⟩
      cases o with
      | none => exact Or.inl rfl
      | some q => exact Or.inr ⟨q, rfl⟩
    · have hex : ∃ f ∈ ql,
          ¬((match f with | none => true | some q => pyIsInteger q) = true) := by
        by_contra hc
        push_neg at hc
        exact hall (List.all_eq_true.mpr hc)
      obtain ⟨f, hf, hfp⟩ := hex
      cases f with
      | none => simp at hfp
      | some q =>
        refine ⟨q, ?_, ?_⟩
        · exact List.mem_map.mpr ⟨some q, hf, rfl⟩
        · simpa [pyIsInteger] using hfp

theorem num_expr_ok_dichotomy {s : List Nat} {i j : Nat} {ne : NumExpr}
    {f : Int} {e : Finset (List Nat)} (h : num_expr s i = PResult.ok j ne f e) :
    (∀ x ∈ ne.value, x = none ∨ ∃ n, x = some (PyNum.pyint n)) ∨
    ((∀ x ∈ ne.value, x = none ∨ ∃ q, x = some (PyNum.pyfloat q)) ∧
     ∃ q, some (PyNum.pyfloat q) ∈ ne.value ∧ q.den ≠ 1) := by
  have hok : (num_expr s i).okData = some (j, ne) := by rw [h]; rfl
  obtain ⟨ql, hval, -⟩ := num_expr_okData_shape hok
  rcases coerceNumList_cases ql with hint | ⟨hfl, q, hqmem, hqden⟩
  · left
    intro x hx
    rw [hval] at hx
    exact hint x ((mem_usl _ _).mp hx)
  · right
    constructor
    · intro x hx
      rw [hval] at hx
      exact hfl x ((mem_usl _ _).mp hx)
    · refine ⟨q, ?_, hqden⟩
      rw [hval]
      exact (mem_usl _ _).mpr hqmem

/-! ### Furthest-failure aggregation: ordering lemmas and the dangling-delimiter
behaviour of sep_by and of the parse entry point -/

theorem aggregate_fur {α : Type} (r : PResult α) (of : Int) (oe : Finset (List Nat)) :
    (r.aggregate of oe).fur = max r.fur of := by
  cases r with
  | ok i v f e =>
    simp only [PResult.aggregate, PResult.fur]
    split_ifs with h1 h2 <;> simp only [PResult.fur] <;> omega
  | err f e =>
    simp only [PResult.aggregate, PResult.fur]
    split_ifs with h1 h2 <;> simp only [PResult.fur] <;> omega

theorem aggregate_keep_ok {α : Type} {i : Nat} {v : α} {f of : Int} {e oe : Finset (List Nat)}
    (h : of < f) : (PResult.ok i v f e).aggregate of oe = .ok i v f e := by
  simp only [PResult.aggregate, if_pos h]

theorem aggregate_keep_err {α : Type} {f of : Int} {e oe : Finset (List Nat)}
    (h : of < f) : (PResult.err f e : PResult α).aggregate of oe = .err f e := by
  simp only [PResult.aggregate, if_pos h]

theorem aggregate_take_ok {α : Type} {i : Nat} {v : α} {f of : Int} {e oe : Finset (List Nat)}
    (h : f < of) : (PResult.ok i v f e).aggregate of oe = .ok i v of oe := by
  simp only [PResult.aggregate, if_neg (by omega : ¬ of < f), if_neg (by omega : ¬ f = of)]

theorem aggregate_take_err {α : Type} {f of : Int} {e oe : Finset (List Nat)}
    (h : f < of) : (PResult.err f e : PResult α).aggregate of oe = .err of oe := by
  simp only [PResult.aggregate, if_neg (by omega : ¬ of < f), if_neg (by omega : ¬ f = of)]

theorem aggregate_ok_fur {α : Type} {i : Nat} {v : α} {f of : Int} {e oe : Finset (List Nat)}
    {i2 : Nat} {v2 : α} {f2 : Int} {e2 : Finset (List Nat)}
    (h : (PResult.ok i v f e).aggregate of oe = .ok i2 v2 f2 e2) :
    f ≤ f2 ∧ of ≤ f2 ∧ (f2 = f ∨ f2 = of) := by
  have h2 := congrArg PResult.fur h
  rw [aggregate_fur] at h2
  simp only [PResult.fur] at h2
  refine ⟨h2 ▸ le_max_left f of, h2 ▸ le_max_right f of, ?_⟩
  rcases max_choice f of with hc | hc
  · exact Or.inl (by omega)
  · exact Or.inr (by omega)

theorem nthc_lt_length {s : List Nat} {i c : Nat} (h : nthc s i = some c) : i < s.length := by
  by_contra hge
  have hnil : List.drop i s = [] := List.drop_eq_nil_of_le (by omega)
  rw [nthc, hnil] at h
  exact Option.noConfusion h

theorem digitRun_le (s : List Nat) (i : Nat) : digitRun s i ≤ s.length - i := by
  unfold digitRun
  calc ((List.drop i s).takeWhile isDigitC).length ≤ (List.drop i s).length :=
        (List.takeWhile_sublist isDigitC).length_le
    _ = s.length - i := List.length_drop i s

theorem floatMatchEnd_bounds {s : List Nat} {i k : Nat}
    (h : floatMatchEnd s i = some k) : i < k ∧ k ≤ s.length := by
  simp only [floatMatchEnd] at h
  set j0 := if nthc s i = some 43 ∨ nthc s i = some 45 then i + 1 else i with hj0
  have hij0 : i ≤ j0 ∧ j0 ≤ s.length ∨ (j0 = i) := by
    rw [hj0]
    split
    · next hc =>
      rcases hc with hc | hc
      · exact Or.inl ⟨by omega, by have := nthc_lt_length hc; omega⟩
      · exact Or.inl ⟨by omega, by have := nthc_lt_length hc; omega⟩
    · exact Or.inr rfl
  have hd := digitRun_le s j0
  -- mantissa analysis
  split at h
  · exact Option.noConfusion h
  · next q hq =>
    -- hq : mantissa = some q ; first establish i < q ∧ q ≤ s.length
    have hqb : i < q ∧ q ≤ s.length := by
      split at hq
      · next h46 =>
        have hp46 := nthc_lt_length h46
        have hd2 := digitRun_le s (j0 + digitRun s j0 + 1)
        split at hq
        · next hd2pos =>
          injection hq with hqe
          omega
        · split at hq
          · next hdpos =>
            injection hq with hqe
            omega
          · exact Option.noConfusion hq
      · split at hq
        · next hdpos =>
          injection hq with hqe
          omega
        · exact Option.noConfusion hq
    -- exponent analysis
    split at h
    · next hE =>
      have hqE : q < s.length := by
        rcases hE with hE | hE
        · exact nthc_lt_length hE
        · exact nthc_lt_length hE
      set k0 := if nthc s (q + 1) = some 43 ∨ nthc s (q + 1) = some 45 then q + 2 else q + 1
        with hk0
      have hk0b : q < k0 ∧ k0 ≤ s.length := by
        rw [hk0]
        split
        · next hc =>
          rcases hc with hc | hc
          · exact ⟨by omega, by have := nthc_lt_length hc; omega⟩
          · exact ⟨by omega, by have := nthc_lt_length hc; omega⟩
        · exact ⟨by omega, by omega⟩
      have hd3 := digitRun_le s k0
      split at h
      · next hd3pos =>
        injection h with hke
        omega
      · injection h with hke
        omega
    · injection h with hke
      omega

theorem asciiLowerL_length (l : List Nat) : (asciiLowerL l).length = l.length :=
  List.length_map l asciiLower

theorem pstringT_ok_facts {exp : List Nat} {tr : List Nat → List Nat} {s : List Nat}
    {i j : Nat} {v : List Nat} {f : Int} {e : Finset (List Nat)}
    (hT : ∀ l : List Nat, (tr l).length = l.length)
    (h : pstringT exp tr s i = PResult.ok j v f e) :
    j = i + exp.length ∧ exp.length ≤ s.length - i ∧ f = -1 := by
  unfold pstringT at h
  split at h
  · next hg =>
    injection h with h1 h2 h3 h4
    refine ⟨h1.symm, ?_, h3.symm⟩
    have hlen := congrArg List.length hg
    rw [hT] at hlen
    unfold sliceL at hlen
    rw [List.length_take, List.length_drop] at hlen
    omega
  · exact PResult.noConfusion h

theorem pstringT_err_facts {exp : List Nat} {tr : List Nat → List Nat} {s : List Nat}
    {i : Nat} {f : Int} {e : Finset (List Nat)}
    (h : pstringT exp tr s i = PResult.err f e) : f = (i : Int) ∧ e = {exp} := by
  unfold pstringT at h
  split at h
  · exact PResult.noConfusion h
  · injection h with h1 h2
    exact ⟨h1.symm, h2.symm⟩

theorem float_token_ok_facts {s : List Nat} {i j : Nat} {v : ℚ} {f : Int}
    {e : Finset (List Nat)} (h : float_token s i = PResult.ok j v f e) :
    i < j ∧ j ≤ s.length ∧ f = -1 := by
  unfold float_token pdesc pmap pbind pregexM at h
  cases hm : floatMatchEnd s i with
  | none =>
    simp only [hm] at h
    exact PResult.noConfusion h
  | some k =>
    obtain ⟨hik, hkl⟩ := floatMatchEnd_bounds hm
    obtain ⟨F, E, hsh⟩ := aggregate_ok_shape k (pyFloat (sliceL s i k)) (-1) (∅) (-1) (∅)
    have hF := aggregate_ok_fur hsh
    simp only [hm, psuccessP, hsh] at h
    injection h with h1 h2 h3 h4
    refine ⟨by omega, by omega, by omega⟩

theorem float_token_err_facts {s : List Nat} {i : Nat} {f : Int} {e : Finset (List Nat)}
    (h : float_token s i = PResult.err f e) :
    f = (i : Int) ∧ e = {strCodes "number"} := by
  unfold float_token pdesc pmap pbind pregexM at h
  cases hm : floatMatchEnd s i with
  | none =>
    simp only [hm] at h
    injection h with h1 h2
    exact ⟨h1.symm, h2.symm⟩
  | some k =>
    obtain ⟨F, E, hsh⟩ := aggregate_ok_shape k (pyFloat (sliceL s i k)) (-1) (∅) (-1) (∅)
    simp only [hm, psuccessP, hsh] at h
    exact PResult.noConfusion h

theorem null_token_ok_facts {α : Type} {s : List Nat} {i j : Nat} {v : Option α} {f : Int}
    {e : Finset (List Nat)} (h : null_token α s i = PResult.ok j v f e) :
    j = i + 4 ∧ i + 4 ≤ s.length ∧ f = -1 := by
  unfold null_token pmap pbind at h
  cases hps : pstringT (strCodes "null") asciiLowerL s i with
  | ok j1 v1 f1 e1 =>
    obtain ⟨hj1, hb, hf1⟩ := pstringT_ok_facts asciiLowerL_length hps
    obtain ⟨F, E, hsh⟩ := aggregate_ok_shape j1 (none : Option α) (-1) (∅) f1 e1
    have hF := aggregate_ok_fur hsh
    simp only [hps, psuccessP, hsh] at h
    injection h with h1 h2 h3 h4
    have h4len : (strCodes "null").length = 4 := by decide
    refine ⟨by omega, by omega, by omega⟩
  | err f1 e1 =>
    simp only [hps] at h
    exact PResult.noConfusion h

theorem null_token_err_facts {α : Type} {s : List Nat} {i : Nat} {f : Int}
    {e : Finset (List Nat)} (h : null_token α s i = PResult.err f e) :
    f = (i : Int) ∧ e = {strCodes "null"} := by
  unfold null_token pmap pbind at h
  cases hps : pstringT (strCodes "null") asciiLowerL s i with
  | ok j1 v1 f1 e1 =>
    obtain ⟨F, E, hsh⟩ := aggregate_ok_shape j1 (none : Option α) (-1) (∅) f1 e1
    simp only [hps, psuccessP, hsh] at h
    exact PResult.noConfusion h
  | err f1 e1 =>
    obtain ⟨hf1, he1⟩ := pstringT_err_facts hps
    simp only [hps] at h
    injection h with h1 h2
    subst h1 h2
    exact ⟨hf1, he1⟩

theorem num_or_null_ok_facts {s : List Nat} {i j : Nat} {v : Option ℚ} {f : Int}
    {e : Finset (List Nat)} (h : num_or_null_token s i = PResult.ok j v f e) :
    i < j ∧ j ≤ s.length ∧ (-1 : Int) ≤ f ∧ f < (j : Int) := by
  unfold num_or_null_token palt pmap pbind at h
  cases hF : float_token s i with
  | ok jF vF fF eF =>
    obtain ⟨hiF, hFl, hfF⟩ := float_token_ok_facts hF
    obtain ⟨F, E, hsh⟩ := aggregate_ok_shape jF (some vF) (-1) (∅) fF eF
    have hFeq := aggregate_ok_fur hsh
    simp only [hF, psuccessP, hsh] at h
    injection h with h1 h2 h3 h4
    refine ⟨by omega, by omega, by omega, by omega⟩
  | err fF eF =>
    obtain ⟨hfF, heF⟩ := float_token_err_facts hF
    simp only [hF] at h
    cases hN : null_token ℚ s i with
    | ok jN vN fN eN =>
      obtain ⟨hjN, hNl, hfN⟩ := null_token_ok_facts hN
      obtain ⟨F, E, hsh⟩ := aggregate_ok_shape jN vN fN eN fF eF
      have hFeq := aggregate_ok_fur hsh
      simp only [hN, hsh] at h
      injection h with h1 h2 h3 h4
      refine ⟨by omega, by omega, by omega, by omega⟩
    | err fN eN =>
      obtain ⟨hfN, heN⟩ := null_token_err_facts hN
      obtain ⟨F, E, hsh⟩ := aggregate_err_shape (α := Option ℚ) fN eN fF eF
      simp only [hN, hsh] at h
      exact PResult.noConfusion h

theorem num_or_null_err_facts {s : List Nat} {i : Nat} {f : Int}
    {e : Finset (List Nat)} (h : num_or_null_token s i = PResult.err f e) :
    f = (i : Int) := by
  unfold num_or_null_token palt pmap pbind at h
  cases hF : float_token s i with
  | ok jF vF fF eF =>
    obtain ⟨F, E, hsh⟩ := aggregate_ok_shape jF (some vF) (-1) (∅) fF eF
    simp only [hF, psuccessP, hsh] at h
    exact PResult.noConfusion h
  | err fF eF =>
    obtain ⟨hfF, heF⟩ := float_token_err_facts hF
    simp only [hF] at h
    cases hN : null_token ℚ s i with
    | ok jN vN fN eN =>
      obtain ⟨F, E, hsh⟩ := aggregate_ok_shape jN vN fN eN fF eF
      simp only [hN, hsh] at h
      exact PResult.noConfusion h
    | err fN eN =>
      obtain ⟨hfN, heN⟩ := null_token_err_facts hN
      obtain ⟨F, E, hsh⟩ := aggregate_err_shape (α := Option ℚ) fN eN fF eF
      have hfur := congrArg PResult.fur hsh
      rw [aggregate_fur] at hfur
      simp only [PResult.fur] at hfur
      simp only [hN, hsh] at h
      injection h with h1 h2
      omega

theorem pthen_string_ok_facts {α : Type} {sepStr : List Nat} {p : Parser α}
    {s : List Nat} {i j : Nat} {v : α} {f : Int} {e : Finset (List Nat)}
    (hp : ∀ i2 j2 v2 f2 e2, p s i2 = PResult.ok j2 v2 f2 e2 →
      i2 < j2 ∧ j2 ≤ s.length ∧ (-1 : Int) ≤ f2 ∧ f2 < (j2 : Int))
    (h : pthen (pstring sepStr) p s i = PResult.ok j v f e) :
    i < j ∧ j ≤ s.length ∧ (-1 : Int) ≤ f ∧ f < (j : Int) := by
  unfold pthen pbind pseq2 pstring at h
  cases hS : pstringT sepStr id s i with
  | err fS eS =>
    obtain ⟨F, E, hsh⟩ := aggregate_err_shape (α := List Nat) fS eS (-1) (∅)
    simp only [hS, hsh] at h
    exact PResult.noConfusion h
  | ok jS vS fS eS =>
    obtain ⟨hjS, hSb, hfS⟩ := pstringT_ok_facts (fun l => rfl) hS
    obtain ⟨F1, E1, h1⟩ := aggregate_ok_shape jS vS fS eS (-1) (∅)
    have hF1 := aggregate_ok_fur h1
    simp only [hS, h1] at h
    cases hP : p s jS with
    | err fP eP =>
      obtain ⟨F2, E2, h2⟩ := aggregate_err_shape (α := α) fP eP F1 E1
      simp only [hP, h2] at h
      exact PResult.noConfusion h
    | ok jP vP fP eP =>
      obtain ⟨hiP, hPl, hfPl, hfPu⟩ := hp jS jP vP fP eP hP
      obtain ⟨F2, E2, h2⟩ := aggregate_ok_shape jP vP fP eP F1 E1
      have hF2 := aggregate_ok_fur h2
      obtain ⟨F3, E3, h3⟩ := aggregate_ok_shape jP (vS, vP) (-1) (∅) F2 E2
      have hF3 := aggregate_ok_fur h3
      obtain ⟨F4, E4, h4⟩ := aggregate_ok_shape jP vP (-1) (∅) F3 E3
      have hF4 := aggregate_ok_fur h4
      simp only [hP, h2, h3, psuccessP, h4] at h
      injection h with e1 e2 e3 e4
      refine ⟨by omega, by omega, by omega, by omega⟩

theorem pthen_string_err_facts {α : Type} {sepStr : List Nat} {p : Parser α}
    {s : List Nat} {i : Nat} {f : Int} {e : Finset (List Nat)}
    (hpe : ∀ i2 f2 e2, p s i2 = PResult.err f2 e2 → (i2 : Int) ≤ f2)
    (h : pthen (pstring sepStr) p s i = PResult.err f e) : (i : Int) ≤ f := by
  unfold pthen pbind pseq2 pstring at h
  cases hS : pstringT sepStr id s i with
  | err fS eS =>
    obtain ⟨hfS, heS⟩ := pstringT_err_facts hS
    obtain ⟨F, E, hsh⟩ := aggregate_err_shape (α := List Nat) fS eS (-1) (∅)
    have hfur := congrArg PResult.fur hsh
    rw [aggregate_fur] at hfur
    simp only [PResult.fur] at hfur
    simp only [hS, hsh] at h
    injection h with e1 e2
    omega
  | ok jS vS fS eS =>
    obtain ⟨hjS, hSb, hfS⟩ := pstringT_ok_facts (fun l => rfl) hS
    obtain ⟨F1, E1, h1⟩ := aggregate_ok_shape jS vS fS eS (-1) (∅)
    have hF1 := aggregate_ok_fur h1
    simp only [hS, h1] at h
    cases hP : p s jS with
    | err fP eP =>
      have hiP := hpe jS fP eP hP
      obtain ⟨F2, E2, h2⟩ := aggregate_err_shape (α := α) fP eP F1 E1
      have hfur := congrArg PResult.fur h2
      rw [aggregate_fur] at hfur
      simp only [PResult.fur] at hfur
      simp only [hP, h2] at h
      injection h with e1 e2
      omega
    | ok jP vP fP eP =>
      obtain ⟨F2, E2, h2⟩ := aggregate_ok_shape jP vP fP eP F1 E1
      obtain ⟨F3, E3, h3⟩ := aggregate_ok_shape jP (vS, vP) (-1) (∅) F2 E2
      obtain ⟨F4, E4, h4⟩ := aggregate_ok_shape jP vP (-1) (∅) F3 E3
      simp only [hP, h2, h3, psuccessP, h4] at h
      exact PResult.noConfusion h

theorem ptimes1_ok_facts {α : Type} {p : Parser α} {s : List Nat} {i j : Nat}
    {v : List α} {f : Int} {e : Finset (List Nat)}
    (hp : ∀ i2 j2 v2 f2 e2, p s i2 = PResult.ok j2 v2 f2 e2 →
      i2 < j2 ∧ j2 ≤ s.length ∧ (-1 : Int) ≤ f2 ∧ f2 < (j2 : Int))
    (h : ptimes1 p s i = PResult.ok j v f e) :
    i < j ∧ j ≤ s.length ∧ (-1 : Int) ≤ f ∧ f < (j : Int) := by
  unfold ptimes1 at h
  cases hP : p s i with
  | err fP eP =>
    obtain ⟨F, E, hsh⟩ := aggregate_err_shape (α := α) fP eP (-1) (∅)
    simp only [hP, hsh] at h
    exact PResult.noConfusion h
  | ok jP vP fP eP =>
    obtain ⟨hiP, hPl, hfPl, hfPu⟩ := hp i jP vP fP eP hP
    obtain ⟨F1, E1, h1⟩ := aggregate_ok_shape jP vP fP eP (-1) (∅)
    have hF1 := aggregate_ok_fur h1
    obtain ⟨F2, E2, h2⟩ := aggregate_ok_shape jP [vP] (-1) (∅) F1 E1
    have hF2 := aggregate_ok_fur h2
    simp only [hP, h1, h2] at h
    injection h with e1 e2 e3 e4
    refine ⟨by omega, by omega, by omega, by omega⟩

/-- Where parsy's times(0, inf) loop stops, the repeated parser fails, and the
success carries exactly that failure's furthest index and expected set:
provided every success of the repeated parser consumes input, stays inside the
stream, and records its inner failures strictly before its end, while every
failure is recorded at or after the position it occurs at. -/
theorem ptimesLoop_last_failure {α : Type} {u : Parser α} {s : List Nat}
    (hu : ∀ i2 j2 v2 f2 e2, u s i2 = PResult.ok j2 v2 f2 e2 →
      i2 < j2 ∧ j2 ≤ s.length ∧ f2 < (j2 : Int))
    (hue : ∀ i2 f2 e2, u s i2 = PResult.err f2 e2 → (i2 : Int) ≤ f2) :
    ∀ (fuel i : Nat) (acc : List α) (f0 : Int) (e0 : Finset (List Nat))
      (j : Nat) (vs : List α) (f : Int) (e : Finset (List Nat)),
      i ≤ s.length → s.length + 1 - i ≤ fuel → f0 < (i : Int) →
      ptimesLoop u s fuel i acc f0 e0 = PResult.ok j vs f e →
      u s j = PResult.err f e ∧ i ≤ j := by
  intro fuel
  induction fuel with
  | zero => intro i acc f0 e0 j vs f e hi hfuel _ _; omega
  | succ n ih =>
    intro i acc f0 e0 j vs f e hi hfuel hf0 hrun
    unfold ptimesLoop at hrun
    cases hu0 : u s i with
    | ok j2 v2 f2 e2 =>
      obtain ⟨hij, hjl, hfj⟩ := hu i j2 v2 f2 e2 hu0
      obtain ⟨F, E, hsh⟩ := aggregate_ok_shape j2 v2 f2 e2 f0 e0
      have hF := aggregate_ok_fur hsh
      simp only [hu0, hsh] at hrun
      obtain ⟨hrec, hle⟩ := ih j2 (v2 :: acc) F E j vs f e hjl (by omega) (by omega) hrun
      exact ⟨hrec, by omega⟩
    | err f2 e2 =>
      have hif := hue i f2 e2 hu0
      have hagg : (PResult.err f2 e2 : PResult α).aggregate f0 e0 = .err f2 e2 :=
        aggregate_keep_err (by omega)
      simp only [hu0, hagg] at hrun
      rw [aggregate_take_ok (by omega)] at hrun
      injection hrun with e1 e2' e3 e4
      subst e1 e3 e4
      exact ⟨hu0, le_refl i⟩

/-- parsy's sep_by(min=1) stops exactly at a failing delimiter-plus-element
attempt, and its success carries exactly that failure's furthest index and
expected set (hypotheses as in ptimesLoop_last_failure, for the head element
parser and for the delimiter-plus-element parser). -/
theorem psepBy1_trailing_failure {α : Type} {p : Parser α} {sep : Parser (List Nat)}
    {s : List Nat} {i j : Nat} {vs : List α} {f : Int} {e : Finset (List Nat)}
    (hp : ∀ i2 j2 v2 f2 e2, p s i2 = PResult.ok j2 v2 f2 e2 →
      i2 < j2 ∧ j2 ≤ s.length ∧ (-1 : Int) ≤ f2 ∧ f2 < (j2 : Int))
    (hu : ∀ i2 j2 v2 f2 e2, pthen sep p s i2 = PResult.ok j2 v2 f2 e2 →
      i2 < j2 ∧ j2 ≤ s.length ∧ f2 < (j2 : Int))
    (hue : ∀ i2 f2 e2, pthen sep p s i2 = PResult.err f2 e2 → (i2 : Int) ≤ f2)
    (h : psepBy1 p sep s i = PResult.ok j vs f e) :
    pthen sep p s j = PResult.err f e ∧ (j : Int) ≤ f := by
  unfold psepBy1 pbind pseq2 at h
  cases hT : ptimes1 p s i with
  | err fT eT =>
    obtain ⟨F, E, hsh⟩ := aggregate_err_shape (α := List α) fT eT (-1) (∅)
    simp only [hT, hsh] at h
    exact PResult.noConfusion h
  | ok jT vT fT eT =>
    obtain ⟨hiT, hTl, hfTl, hfTu⟩ := ptimes1_ok_facts hp hT
    obtain ⟨F1, E1, h1⟩ := aggregate_ok_shape jT vT fT eT (-1) (∅)
    have hF1 := aggregate_ok_fur h1
    simp only [hT, h1] at h
    cases hL : ptimesInf (pthen sep p) s jT with
    | err fL eL =>
      obtain ⟨F2, E2, h2⟩ := aggregate_err_shape (α := List α) fL eL F1 E1
      simp only [hL, h2] at h
      exact PResult.noConfusion h
    | ok jL vL fL eL =>
      have hLrun : ptimesLoop (pthen sep p) s (s.length + 1 - jT) jT [] (-1) (∅) =
          PResult.ok jL vL fL eL := hL
      obtain ⟨hstop, hTjL⟩ := ptimesLoop_last_failure hu hue (s.length + 1 - jT) jT [] (-1)
        (∅) jL vL fL eL hTl (le_refl _) (by omega) hLrun
      have hjLfL : (jL : Int) ≤ fL := hue jL fL eL hstop
      have hagg1 : (PResult.ok jL vL fL eL).aggregate F1 E1 = .ok jL vL fL eL :=
        aggregate_keep_ok (by omega)
      have hagg2 : (PResult.ok jL (vT, vL) (-1) (∅ : Finset (List Nat))).aggregate fL eL =
          .ok jL (vT, vL) fL eL := aggregate_take_ok (by omega)
      simp only [hL, hagg1, hagg2, psuccessP] at h
      have hagg3 : (PResult.ok jL (vT ++ vL) (-1) (∅ : Finset (List Nat))).aggregate fL eL =
          .ok jL (vT ++ vL) fL eL := aggregate_take_ok (by omega)
      rw [hagg3] at h
      injection h with e1 e2 e3 e4
      subst e1 e3 e4
      exact ⟨hstop, hjLfL⟩

/-- If the predicate-list grammar matches only a proper prefix of the input
(as it does whenever a trailing delimiter is left over), the parse entry point
never succeeds: the implicit eof fails at the end of the prefix. -/
theorem pparse_prefix_no_success {s : List Nat} {j : Nat} {tpl : TablePredicateList}
    {f : Int} {e : Finset (List Nat)}
    (hok : predicate_list s 0 = PResult.ok j tpl f e) (hlen : j < s.length) :
    ∀ v, pparse predicate_list s ≠ Except.ok v := by
  intro v
  obtain ⟨F, E, h1⟩ := aggregate_ok_shape j tpl f e (-1) (∅)
  have h2 : peof s j = .err (j : Int) {strCodes "EOF"} := by
    unfold peof
    rw [if_neg (by omega)]
  obtain ⟨F2, E2, h3⟩ := aggregate_err_shape (α := Unit) (j : Int) {strCodes "EOF"} F E
  simp only [pparse, pskip, pbind, pseq2, hok, h1, h2, h3]
  intro hcon
  exact Except.noConfusion hcon

/-- Moreover, when the prefix match carries a recorded failure beyond its own
end (the dangling-delimiter situation: the delimiter was consumed and the
element after it failed further right), the surfaced ParseError is exactly
that recorded failure: its expected set and its furthest index. -/
theorem pparse_prefix_err_exact {s : List Nat} {j : Nat} {tpl : TablePredicateList}
    {f : Int} {e : Finset (List Nat)}
    (hok : predicate_list s 0 = PResult.ok j tpl f e) (hlen : j < s.length)
    (hf : (j : Int) < f) :
    pparse predicate_list s = Except.error ⟨e, f⟩ := by
  have h1 : (predicate_list s 0).aggregate (-1) (∅) = PResult.ok j tpl f e := by
    rw [hok]
    exact aggregate_keep_ok (by omega)
  have h2 : peof s j = .err (j : Int) {strCodes "EOF"} := by
    unfold peof
    rw [if_neg (by omega)]
  have h3 : (PResult.err (j : Int) {strCodes "EOF"} : PResult Unit).aggregate f e =
      .err f e := aggregate_take_err hf
  simp only [pparse, pskip, pbind, pseq2, h1, h2, h3]

/-- The sep_by machinery instantiated at the number-or-null list grammar of
lines 108-116: wherever the comma-separated run stops, the comma-plus-element
attempt at the stop position fails, and the success carries exactly that
failure. -/
theorem num_list_trailing_failure {s : List Nat} {i j : Nat} {vs : List (Option ℚ)}
    {f : Int} {e : Finset (List Nat)}
    (h : psepBy1 num_or_null_token (pstring (strCodes ",")) s i = PResult.ok j vs f e) :
    pthen (pstring (strCodes ",")) num_or_null_token s j = PResult.err f e ∧
      (j : Int) ≤ f := by
  refine psepBy1_trailing_failure ?_ ?_ ?_ h
  · exact fun i2 j2 v2 f2 e2 hh => num_or_null_ok_facts hh
  · intro i2 j2 v2 f2 e2 hh
    have := pthen_string_ok_facts (fun i3 j3 v3 f3 e3 hh3 => num_or_null_ok_facts hh3) hh
    exact ⟨this.1, this.2.1, this.2.2.2⟩
  · exact fun i2 f2 e2 hh =>
      pthen_string_err_facts (fun i3 f3 e3 hh3 => le_of_eq (num_or_null_err_facts hh3).symm) hh

/-! ### The claims -/

/-- Claim C1, counterexample.  The claim says the normalized tuple places the
null sentinel last and sorts defined values by natural order, so that
"t.c:true,false,null" parses to the tuple (False, True, None).  In the code,
sorted's key `v is not None` is False exactly on None, so None sorts FIRST:
the parse succeeds, its three-element tuple starts with None, and it is not
the claimed tuple. -/
theorem claim_C1_counterexample :
    parsedSingleBoolValues "t.c:true,false,null" ≠ some [some false, some true, none]
    ∧ (parsedSingleBoolValues "t.c:true,false,null").isSome = true
    ∧ ((parsedSingleBoolValues "t.c:true,false,null").getD []).head? = some none := by
  refine ⟨by decide, by decide, by decide⟩

/-- Claim C1, amended.  For every parsed value list the normalized tuple
places the null sentinel (a single occurrence after deduplication) FIRST,
before every defined value, and the defined values keep their set
(deduplication) order rather than being sorted; in particular parsing
"t.c:true,false,null" succeeds with a three-element BoolNullExpr tuple whose
head is None and which contains False and True. -/
theorem claim_C1_theorem :
    (∀ (α : Type) [DecidableEq α] (l : List (Option α)),
      unique_sort_list l =
        (if none ∈ l then [none] else []) ++ (pySet l).filter (fun v => v.isSome))
    ∧ ((parsedSingleBoolValues "t.c:true,false,null").getD []).length = 3
    ∧ ((parsedSingleBoolValues "t.c:true,false,null").getD []).head? = some none
    ∧ some false ∈ (parsedSingleBoolValues "t.c:true,false,null").getD []
    ∧ some true ∈ (parsedSingleBoolValues "t.c:true,false,null").getD [] := by
  refine ⟨?_, by decide, by decide, by decide, by decide⟩
  intro α _ l
  exact usl_eq_nones_append l

/-- Claim C2.  Universally: (1) whenever the delimited grammar matches only a
proper prefix of the input — which is what sep_by does on every input with a
dangling delimiter, since it silently stops before it — the parse fails as a
whole, never succeeding with the shortened list; (2) whenever the prefix
match's recorded furthest failure lies beyond the prefix (the dangling
delimiter was consumed and the element after it failed), the surfaced
ParseError is exactly that recorded failure; (3) for the comma-separated
number list, wherever the run stops, the comma-plus-element attempt at the
stop position fails and the run's recorded failure is exactly that attempt's
failure, at or beyond the stop position — the first unmatched element.
Concretely: "t.c:1," fails at offset 6 expecting a number or null,
"t.c:1,2," at offset 8, and the string-list analogue at offset 8 expecting a
JSON string or null. -/
theorem claim_C2_theorem :
    (∀ (s : List Nat) (j : Nat) (tpl : TablePredicateList) (f : Int)
        (e : Finset (List Nat)),
        predicate_list s 0 = PResult.ok j tpl f e → j < s.length →
        ∀ v, pparse predicate_list s ≠ Except.ok v)
    ∧ (∀ (s : List Nat) (j : Nat) (tpl : TablePredicateList) (f : Int)
        (e : Finset (List Nat)),
        predicate_list s 0 = PResult.ok j tpl f e → j < s.length → (j : Int) < f →
        pparse predicate_list s = Except.error ⟨e, f⟩)
    ∧ (∀ (s : List Nat) (i j : Nat) (vs : List (Option ℚ)) (f : Int)
        (e : Finset (List Nat)),
        psepBy1 num_or_null_token (pstring (strCodes ",")) s i = PResult.ok j vs f e →
        pthen (pstring (strCodes ",")) num_or_null_token s j = PResult.err f e ∧
          (j : Int) ≤ f)
    ∧ pparse predicate_list (strCodes "t.c:1,") =
      Except.error ⟨{strCodes "number", strCodes "null"}, 6⟩
    ∧ pparse predicate_list (strCodes "t.c:1,2,") =
      Except.error ⟨{strCodes "number", strCodes "null"}, 8⟩
    ∧ pparse predicate_list (strCodes "t.c:\"a\",") =
      Except.error ⟨{strCodes "valid, JSON-encoded string", strCodes "null"}, 8⟩ := by
  refine ⟨?_, ?_, ?_, by decide, by decide, by decide⟩
  · exact fun s j tpl f e hok hlen => pparse_prefix_no_success hok hlen
  · exact fun s j tpl f e hok hlen hf => pparse_prefix_err_exact hok hlen hf
  · exact fun s i j vs f e h => num_list_trailing_failure h

/-- Claim C2, witness: the universal parts instantiated on "t.c:1," (the
prefix "t.c:1" matches up to offset 5 carrying the recorded element failure at
offset 6, which the entry point surfaces) and on the bare number list "1,"
(the run stops at offset 1 because comma-plus-element fails there, at
offset 2). -/
theorem claim_C2_witness :
    pparse predicate_list (strCodes "t.c:1,") =
      Except.error ⟨{strCodes "number", strCodes "null"}, 6⟩
    ∧ (pthen (pstring (strCodes ",")) num_or_null_token (strCodes "1,") 1 =
        PResult.err 2 {strCodes "number", strCodes "null"} ∧ ((1 : Nat) : Int) ≤ 2) :=
  ⟨claim_C2_theorem.2.1 (strCodes "t.c:1,") 5
    (TablePredicateList.mk
      [TablePredicate.mk (TableReference.mk (strCodes "t") (strCodes "c"))
        (Expr.numE (NumExpr.mk [some (PyNum.pyint 1)]))])
    6 {strCodes "number", strCodes "null"} (by decide) (by decide) (by decide),
   claim_C2_theorem.2.2.1 (strCodes "1,") 0 1 [some 1] 2
    {strCodes "number", strCodes "null"} (by decide)⟩

/-- Claim C3.  Every successfully parsed number-or-null list is list-wide
coerced: either every element is None or an int (when all parsed floats are
integral), or every element is None or a float and some float element is
non-integral — never a per-element mix; and "t.c:1,2.5" parses to a NumExpr
holding the floats 1.0 and 2.5. -/
theorem claim_C3_theorem :
    (∀ (s : List Nat) (i j : Nat) (ne : NumExpr) (f : Int) (e : Finset (List Nat)),
      num_expr s i = PResult.ok j ne f e →
      (∀ x ∈ ne.value, x = none ∨ ∃ n, x = some (PyNum.pyint n)) ∨
      ((∀ x ∈ ne.value, x = none ∨ ∃ q, x = some (PyNum.pyfloat q)) ∧
       ∃ q, some (PyNum.pyfloat q) ∈ ne.value ∧ q.den ≠ 1))
    ∧ pparse predicate_list (strCodes "t.c:1,2.5") =
      Except.ok (TablePredicateList.mk
        [TablePredicate.mk (TableReference.mk (strCodes "t") (strCodes "c"))
          (Expr.numE (NumExpr.mk
            [some (PyNum.pyfloat 1), some (PyNum.pyfloat (Rat.divInt 5 2))]))]) := by
  exact ⟨fun s i j ne f e h => num_expr_ok_dichotomy h, by decide⟩

/-- Claim C3, witness: the dichotomy instantiated on the parse of "1,2.5",
which lands in the all-float branch. -/
theorem claim_C3_witness :
    (∀ x ∈ (NumExpr.mk
        [some (PyNum.pyfloat 1), some (PyNum.pyfloat (Rat.divInt 5 2))]).value,
      x = none ∨ ∃ n, x = some (PyNum.pyint n)) ∨
    ((∀ x ∈ (NumExpr.mk
        [some (PyNum.pyfloat 1), some (PyNum.pyfloat (Rat.divInt 5 2))]).value,
      x = none ∨ ∃ q, x = some (PyNum.pyfloat q)) ∧
     ∃ q, some (PyNum.pyfloat q) ∈ (NumExpr.mk
        [some (PyNum.pyfloat 1), some (PyNum.pyfloat (Rat.divInt 5 2))]).value ∧
       q.den ≠ 1) :=
  claim_C3_theorem.1 (strCodes "1,2.5") 0 5
    (NumExpr.mk [some (PyNum.pyfloat 1), some (PyNum.pyfloat (Rat.divInt 5 2))])
    5 {strCodes ","} (by decide)

/-- Claim C4.  The value-expression parser tries string-list, then
number-list, then boolean-list, and produces the Expr variant of the first
grammar that matches: a string-list success is returned as a StrExpr
unchanged; on its failure a number-list success is returned as a NumExpr; on
both failures a boolean-list success is returned as a BoolNullExpr; when all
three fail, expr fails (with its own description).  The aggregate terms
record exactly how parsy merges furthest-failure metadata. -/
theorem claim_C4_theorem (s : List Nat) (i : Nat) :
    (∀ j se f e, str_expr s i = PResult.ok j se f e →
      expr s i = (PResult.ok j (Expr.strE se) (-1) ∅).aggregate f e)
    ∧ (∀ f1 e1 j ne f e, str_expr s i = PResult.err f1 e1 →
        num_expr s i = PResult.ok j ne f e →
        expr s i = ((PResult.ok j (Expr.numE ne) (-1) ∅).aggregate f e).aggregate f1 e1)
    ∧ (∀ f1 e1 f2 e2 j be f e, str_expr s i = PResult.err f1 e1 →
        num_expr s i = PResult.err f2 e2 →
        bool_expr s i = PResult.ok j be f e →
        expr s i = ((PResult.ok j (Expr.boolE be) (-1) ∅).aggregate f e).aggregate
          ((PResult.err f2 e2 : PResult Expr).aggregate f1 e1).fur
          ((PResult.err f2 e2 : PResult Expr).aggregate f1 e1).exp)
    ∧ (∀ f1 e1 f2 e2 f3 e3, str_expr s i = PResult.err f1 e1 →
        num_expr s i = PResult.err f2 e2 → bool_expr s i = PResult.err f3 e3 →
        expr s i = PResult.err (i : Int) {strCodes "expression"}) := by
  refine ⟨?_, ?_, ?_, ?_⟩
  · intro j se f e h1
    obtain ⟨fA, eA, hA⟩ := aggregate_ok_shape j (Expr.strE se) (-1) (∅) f e
    simp only [expr, pdesc, palt, pmap, pbind, psuccessP, h1, hA]
  · intro f1 e1 j ne f e h1 h2
    obtain ⟨fA, eA, hA⟩ := aggregate_ok_shape j (Expr.numE ne) (-1) (∅) f e
    obtain ⟨fB, eB, hB⟩ := aggregate_ok_shape j (Expr.numE ne) fA eA f1 e1
    simp only [expr, pdesc, palt, pmap, pbind, psuccessP, h1, h2, hA, hB]
  · intro f1 e1 f2 e2 j be f e h1 h2 h3
    obtain ⟨F, Ee, hE⟩ := aggregate_err_shape (α := Expr) f2 e2 f1 e1
    obtain ⟨fA, eA, hA⟩ := aggregate_ok_shape j (Expr.boolE be) (-1) (∅) f e
    obtain ⟨fB, eB, hB⟩ := aggregate_ok_shape j (Expr.boolE be) fA eA F Ee
    simp only [expr, pdesc, palt, pmap, pbind, psuccessP, h1, h2, h3, hE,
      PResult.fur, PResult.exp, hA, hB]
  · intro f1 e1 f2 e2 f3 e3 h1 h2 h3
    obtain ⟨F, Ee, hE⟩ := aggregate_err_shape (α := Expr) f2 e2 f1 e1
    obtain ⟨F2, Ee2, hE2⟩ := aggregate_err_shape (α := Expr) f3 e3 F Ee
    simp only [expr, pdesc, palt, pmap, pbind, psuccessP, h1, h2, h3, hE, hE2]

/-- Claim C4, witness: on input "1" the string grammar fails and the number
grammar wins, so expr returns the NumExpr with parsy's aggregated
metadata. -/
theorem claim_C4_witness :
    expr (strCodes "1") 0 =
      ((PResult.ok 1 (Expr.numE (NumExpr.mk [some (PyNum.pyint 1)])) (-1) ∅).aggregate
        1 {strCodes ","}).aggregate 0 {strCodes "string list expression"} :=
  (claim_C4_theorem (strCodes "1") 0).2.1 0 {strCodes "string list expression"} 1
    (NumExpr.mk [some (PyNum.pyint 1)]) 1 {strCodes ","} (by decide) (by decide)

/-- Claim C6.  Every Expr produced by a successful top-level parse has a
value tuple that is duplicate-free and non-empty. -/
theorem claim_C6_theorem :
    ∀ (s : List Nat) (tpl : TablePredicateList),
      pparse predicate_list s = Except.ok tpl →
      ∀ pr ∈ tpl.predicates, Expr.normalized pr.expr :=
  fun _ _ h => (pparse_ok_normalized h).2

/-- Claim C6, witness: the invariant instantiated on the parse of "a.b:1". -/
theorem claim_C6_witness :
    Expr.normalized (Expr.numE (NumExpr.mk [some (PyNum.pyint 1)])) :=
  claim_C6_theorem (strCodes "a.b:1")
    (TablePredicateList.mk
      [TablePredicate.mk (TableReference.mk (strCodes "a") (strCodes "b"))
        (Expr.numE (NumExpr.mk [some (PyNum.pyint 1)]))])
    (by decide)
    (TablePredicate.mk (TableReference.mk (strCodes "a") (strCodes "b"))
      (Expr.numE (NumExpr.mk [some (PyNum.pyint 1)])))
    (by decide)

/-- Claim C7.  Predicates are kept in input order, duplicates of the same
table.column are all retained, and a successful parse never yields an empty
predicate list: "a.b:1;c.d:\"x\"" parses to exactly those two predicates in
that order, "a.b:1;a.b:1" parses to the duplicate retained twice, and every
successful parse has at least one predicate. -/
theorem claim_C7_theorem :
    pparse predicate_list (strCodes "a.b:1;c.d:\"x\"") =
      Except.ok (TablePredicateList.mk
        [TablePredicate.mk (TableReference.mk (strCodes "a") (strCodes "b"))
          (Expr.numE (NumExpr.mk [some (PyNum.pyint 1)])),
         TablePredicate.mk (TableReference.mk (strCodes "c") (strCodes "d"))
          (Expr.strE (StrExpr.mk [some (strCodes "x")]))])
    ∧ pparse predicate_list (strCodes "a.b:1;a.b:1") =
      Except.ok (TablePredicateList.mk
        [TablePredicate.mk (TableReference.mk (strCodes "a") (strCodes "b"))
          (Expr.numE (NumExpr.mk [some (PyNum.pyint 1)])),
         TablePredicate.mk (TableReference.mk (strCodes "a") (strCodes "b"))
          (Expr.numE (NumExpr.mk [some (PyNum.pyint 1)]))])
    ∧ (∀ (s : List Nat) (tpl : TablePredicateList),
        pparse predicate_list s = Except.ok tpl → tpl.predicates ≠ []) := by
  refine ⟨by decide, by decide, fun s tpl h => (pparse_ok_normalized h).1⟩

/-- Claim C7, witness: non-emptiness instantiated on the two-predicate
parse. -/
theorem claim_C7_witness :
    (TablePredicateList.mk
      [TablePredicate.mk (TableReference.mk (strCodes "a") (strCodes "b"))
        (Expr.numE (NumExpr.mk [some (PyNum.pyint 1)])),
       TablePredicate.mk (TableReference.mk (strCodes "c") (strCodes "d"))
        (Expr.strE (StrExpr.mk [some (strCodes "x")]))]).predicates ≠ [] :=
  claim_C7_theorem.2.2 (strCodes "a.b:1;c.d:\"x\"")
    (TablePredicateList.mk
      [TablePredicate.mk (TableReference.mk (strCodes "a") (strCodes "b"))
        (Expr.numE (NumExpr.mk [some (PyNum.pyint 1)])),
       TablePredicate.mk (TableReference.mk (strCodes "c") (strCodes "d"))
        (Expr.strE (StrExpr.mk [some (strCodes "x")]))])
    (by decide)

/-- Claim C8, counterexample.  The claim says the failure for "ab:1" carries
the description "table.column reference".  In parsy every .desc on a failing
outer parser REPLACES the inner failure: the surfaced ParseError for "ab:1"
carries only the outermost description "semicolon delimited list of
predicates" (at offset 0), not "table.column reference". -/
theorem claim_C8_counterexample :
    pparse predicate_list (strCodes "ab:1") =
      Except.error ⟨{strCodes "semicolon delimited list of predicates"}, 0⟩
    ∧ strCodes "table.column reference" ∉
        ({strCodes "semicolon delimited list of predicates"} : Finset (List Nat)) := by
  refine ⟨by decide, by decide⟩

/-- Claim C8, amended.  On "ab:1" the table_reference sub-parser itself does
fail with the description "table.column reference" (at offset 0, its start),
but the error surfaced by the entry point carries only the outermost
description "semicolon delimited list of predicates" at offset 0, because
each enclosing .desc replaces the failure it wraps. -/
theorem claim_C8_theorem :
    table_reference (strCodes "ab:1") 0 =
      PResult.err 0 {strCodes "table.column reference"}
    ∧ pparse predicate_list (strCodes "ab:1") =
      Except.error ⟨{strCodes "semicolon delimited list of predicates"}, 0⟩ := by
  refine ⟨by decide, by decide⟩

/-- Claim C9, counterexample.  The claim says every character of code point
at least 0x20 other than quote and backslash is accepted unescaped.  The
regex character class also excludes 0x7F (DEL): the literal made of a quoted
DEL character is rejected by str_token. -/
theorem claim_C9_counterexample :
    str_token [34, 127, 34] 0 =
      PResult.err 0 {strCodes "valid, JSON-encoded string"} := by decide


/-- Claim C9, amended.  For every code point other than the quote and the
backslash, a double-quoted literal containing it unescaped is accepted and
decoded to the raw one-character text exactly when the code point is at
least 0x20 AND not 0x7F; both the control range below 0x20 and 0x7F are
rejected. -/
theorem claim_C9_theorem :
    (∀ c : Nat, c < 1114112 → 32 ≤ c → c ≠ 34 → c ≠ 92 → c ≠ 127 →
      str_token [34, c, 34] 0 = PResult.ok 3 [c] (-1) ∅)
    ∧ (∀ c : Nat, c < 32 ∨ c = 127 →
      str_token [34, c, 34] 0 =
        PResult.err 0 {strCodes "valid, JSON-encoded string"}) := by
  constructor
  · intro c hlt h32 h34 h92 h127
    have ha : jsonAllowed c = true := by
      simp [jsonAllowed, h34, h92, h127]
      omega
    have hbody : jsonBodyEnd [c, 34] = some 2 := by
      simp [jsonBodyEnd, h34, h92, ha]
    have hmatch : jsonStrMatchEnd [34, c, 34] 0 = some 3 := by
      simp [jsonStrMatchEnd, nthc, hbody]
    have hdec : jsonDecodeLit [34, c, 34] = [c] := by
      simp [jsonDecodeLit, jsonUnescape, jsonUnescapeF, h34, h92]
    simp [str_token, pdesc, pmap, pbind, psuccessP, pregexM, hmatch, hdec, sliceL,
      PResult.aggregate]
  · intro c h
    have h34 : c ≠ 34 := by rcases h with h | rfl <;> omega
    have h92 : c ≠ 92 := by rcases h with h | rfl <;> omega
    have ha : jsonAllowed c = false := by
      rcases h with h | rfl
      · simp [jsonAllowed]
        omega
      · simp [jsonAllowed]
    have hbody : jsonBodyEnd [c, 34] = none := by
      simp [jsonBodyEnd, h34, h92, ha]
    have hmatch : jsonStrMatchEnd [34, c, 34] 0 = none := by
      simp [jsonStrMatchEnd, nthc, hbody]
    simp [str_token, pdesc, pmap, pbind, psuccessP, pregexM, hmatch]

/-- Claim C9, witness: the letter a (0x61) is accepted and decoded, the
control character 0x1F is rejected. -/
theorem claim_C9_witness :
    str_token [34, 97, 34] 0 = PResult.ok 3 [97] (-1) ∅
    ∧ str_token [34, 31, 34] 0 =
      PResult.err 0 {strCodes "valid, JSON-encoded string"} :=
  ⟨claim_C9_theorem.1 97 (by decide) (by decide) (by decide) (by decide) (by decide),
   claim_C9_theorem.2 31 (Or.inl (by decide))⟩

theorem asciiLower_inv {c t : Nat} (hl : 97 ≤ t) (hu : t ≤ 122) (h : asciiLower c = t) :
    c = t ∨ c = t - 32 := by
  unfold asciiLower at h
  split_ifs at h <;> omega

/-- Claim C10.  Any input whose value part is the literal null in any letter
case parses to a StrExpr whose tuple is exactly (None,) — not a NumExpr or
BoolNullExpr — because the string list grammar is tried first and its
element parser also accepts the null literal. -/
theorem claim_C10_theorem :
    ∀ s : List Nat, asciiLowerL s = strCodes "null" →
      pparse predicate_list (strCodes "t.c:" ++ s) =
        Except.ok (TablePredicateList.mk
          [TablePredicate.mk (TableReference.mk (strCodes "t") (strCodes "c"))
            (Expr.strE (StrExpr.mk [none]))]) := by
  intro s h
  have hcodes : strCodes "null" = [110, 117, 108, 108] := by decide
  rw [hcodes] at h
  have hlen : s.length = 4 := by
    have h2 := congrArg List.length h
    simpa [asciiLowerL] using h2
  rcases s with _ | ⟨a, _ | ⟨b, _ | ⟨c, _ | ⟨d, _ | ⟨e2, t⟩⟩⟩⟩⟩ <;> simp at hlen
  simp only [asciiLowerL, List.map_cons, List.map_nil, List.cons.injEq, and_true] at h
  obtain ⟨ha, hb, hc, hd⟩ := h
  rcases asciiLower_inv (by decide) (by decide) ha with rfl | rfl <;>
    rcases asciiLower_inv (by decide) (by decide) hb with rfl | rfl <;>
      rcases asciiLower_inv (by decide) (by decide) hc with rfl | rfl <;>
        rcases asciiLower_inv (by decide) (by decide) hd with rfl | rfl <;>
          decide

/-- Claim C10, witness: the mixed-case variant NuLl. -/
theorem claim_C10_witness :
    pparse predicate_list (strCodes "t.c:" ++ strCodes "NuLl") =
      Except.ok (TablePredicateList.mk
        [TablePredicate.mk (TableReference.mk (strCodes "t") (strCodes "c"))
          (Expr.strE (StrExpr.mk [none]))]) :=
  claim_C10_theorem (strCodes "NuLl") (by decide)
